import Mathlib

/-!
Verification of the Dynamic Context Pruning (DCP) engine.

This file gives a shallow embedding, in Lean 4, of the parts of the DCP
TypeScript source that the verified properties talk about: the JSON value
model used for tool parameters, the dedup signature computation
(src/lib/core/strategies/deduplication.ts), the session state and its
maintenance (src/lib/state/utils.ts, src/unnamed/part_008), the content
rewriter (src/lib/messages/prune.ts), the compress tool
(src/lib/tools/compress.ts, src/lib/tools/utils.ts), the supersede-writes
strategy (src/unnamed/part_014), and the protected-file-pattern glob
matcher (src/lib/protected-file-patterns.ts).

JavaScript data is modelled as follows: objects and arrays become the
inductive type JValue (with an explicit undefined value, since the source
distinguishes absent/undefined fields from null ones), JS Map becomes an
association list in insertion order, JS Set becomes a duplicate-free list
in insertion order, JS numbers are modelled as integers (no claim touches
float behaviour), and thrown errors become Except or an explicit error
component of the result.
-/

namespace DCP

/-- JSON-like values as they appear in JavaScript: the `undef` constructor
models the JavaScript value `undefined`, which the source distinguishes
from `null` (e.g. `JSON.stringify` drops undefined-valued object fields
but keeps null ones). Numbers are modelled as integers. -/
inductive JValue where
  | null : JValue
  | undef : JValue
  | bool (b : Bool) : JValue
  | num (n : Int) : JValue
  | str (s : String) : JValue
  | arr (elems : List JValue) : JValue
  | obj (fields : List (String × JValue)) : JValue

/-- JavaScript truthiness for a JValue: null, undefined, false, 0 and the
empty string are falsy, everything else is truthy. -/
def jsTruthy : JValue → Bool
  | .null => false
  | .undef => false
  | .bool b => b
  | .num n => n != 0
  | .str s => s ≠ ""
  | .arr _ => true
  | .obj _ => true

/-- Property access `v.k` in JavaScript, as used by the source with
optional chaining: on a non-object (or an object without the key) it
yields undefined. -/
def jsGet (v : JValue) (k : String) : JValue :=
  match v with
  | .obj fields =>
    match fields.find? (fun kv => kv.1 == k) with
    | some kv => kv.2
    | none => .undef
  | _ => (.undef)

/-- Assignment to a field of an association list: replaces the value of
the first occurrence of the key, appends when absent (JS semantics of
`o[k] = v`). -/
def setAssoc (fields : List (String × JValue)) (k : String) (v : JValue) :
    List (String × JValue) :=
  match fields with
  | [] => [(k, v)]
  | kv :: rest =>
    if kv.1 == k then (k, v) :: rest else kv :: setAssoc rest k v

/-- Property assignment `target.k = v` for a JValue; only meaningful on
objects (the source only performs it under a guard that proved the field
present). -/
def jsSetField (target : JValue) (k : String) (v : JValue) : JValue :=
  match target with
  | .obj fields => .obj (setAssoc fields k v)
  | other => other

def JValue.isUndef : JValue → Bool
  | .undef => true
  | _ => false

def JValue.isNull : JValue → Bool
  | .null => true
  | _ => false

/-! JSON serialization, mirroring the semantics of `JSON.stringify` as the
deduplication signature uses it: object fields with undefined values are
skipped, undefined array elements are rendered as null, strings are
escaped and quoted. -/

def hexDigit (n : Nat) : Char :=
  if n < 10 then Char.ofNat (48 + n) else Char.ofNat (87 + n)

def hex4 (n : Nat) : String :=
  String.mk [hexDigit (n / 4096 % 16), hexDigit (n / 256 % 16),
    hexDigit (n / 16 % 16), hexDigit (n % 16)]

def escapeJsonChar (c : Char) : String :=
  if c = '"' then "\\\""
  else if c = '\\' then "\\\\"
  else if c = '\n' then "\\n"
  else if c = '\r' then "\\r"
  else if c = '\t' then "\\t"
  else if c = Char.ofNat 8 then "\\b"
  else if c = Char.ofNat 12 then "\\f"
  else if c.toNat < 32 then "\\u" ++ hex4 c.toNat
  else String.singleton c

def escapeJsonString (s : String) : String :=
  "\"" ++ String.join (s.data.map escapeJsonChar) ++ "\""

mutual

/-- The serialization `JSON.stringify(v)`. At top level
`JSON.stringify(undefined)` is the value `undefined`, which the template
literal of `createToolSignature` renders as the text "undefined"; nested
undefined values never reach this function directly (object members skip
them, array members render them as null). -/
def jsonStringify : JValue → String
  | .null => "null"
  | .undef => "undefined"
  | .bool b => if b then "true" else "false"
  | .num n => toString n
  | .str s => escapeJsonString s
  | .arr es => "[" ++ String.intercalate "," (jsonArrMembers es) ++ "]"
  | .obj fs => "\x7b" ++ String.intercalate "," (jsonObjMembers fs) ++ "\x7d"

def jsonArrMembers : List JValue → List String
  | [] => []
  | v :: rest =>
    (if v.isUndef then "null" else jsonStringify v) :: jsonArrMembers rest

def jsonObjMembers : List (String × JValue) → List String
  | [] => []
  | (k, v) :: rest =>
    if v.isUndef then jsonObjMembers rest
    else (escapeJsonString k ++ ":" ++ jsonStringify v) :: jsonObjMembers rest

end

/-! The dedup signature of src/lib/core/strategies/deduplication.ts. -/

/-- Lexicographic comparison of strings as character lists, written as an
executable Boolean so that concrete signatures evaluate. -/
def charListLe : List Char → List Char → Bool
  | [], _ => true
  | _ :: _, [] => false
  | a :: as, b :: bs => if a < b then true else if b < a then false else charListLe as bs

/-- Order on association-list entries comparing only the keys, as
`Object.keys(obj).sort()` does. (JavaScript sorts by UTF-16 code units,
Lean strings compare by code points; the two agree on all claims here and
any fixed total order yields the same canonicalization behaviour.) -/
def keyLE (a b : String × JValue) : Prop := charListLe a.1.data b.1.data = true

instance : DecidableRel keyLE := fun a b =>
  inferInstanceAs (Decidable (charListLe a.1.data b.1.data = true))

def sortPairsByKey (l : List (String × JValue)) : List (String × JValue) :=
  l.insertionSort keyLE

mutual

/-- The recursive key sort of `sortObjectKeys`. The source sorts the keys
first and then recurses into the values; since the sort compares keys
only, recursing into the values first and sorting afterwards produces the
same object, which is the form used here. -/
def sortObjectKeys : JValue → JValue
  | .arr es => .arr (sortObjectKeysList es)
  | .obj fs => .obj (sortPairsByKey (sortObjectKeysFields fs))
  | .null => .null
  | .undef => .undef
  | .bool b => .bool b
  | .num n => .num n
  | .str s => .str s

def sortObjectKeysList : List JValue → List JValue
  | [] => []
  | v :: rest => sortObjectKeys v :: sortObjectKeysList rest

def sortObjectKeysFields : List (String × JValue) → List (String × JValue)
  | [] => []
  | (k, v) :: rest => (k, sortObjectKeys v) :: sortObjectKeysFields rest

end

/-- The `normalizeParameters` of deduplication.ts: on a plain object it
drops the fields whose value is null or undefined — only at the top
level; arrays and primitives are returned unchanged. -/
def normalizeParameters (params : JValue) : JValue :=
  match params with
  | .obj fields => .obj (fields.filter (fun kv => !(kv.2.isUndef || kv.2.isNull)))
  | v => v

/-- The `createToolSignature` of deduplication.ts: falsy parameters give
the bare tool name, otherwise the tool name is joined with the serialized
normalized key-sorted parameters. -/
def createToolSignature (tool : String) (parameters : JValue) : String :=
  if !jsTruthy parameters then tool
  else tool ++ "::" ++ jsonStringify (sortObjectKeys (normalizeParameters parameters))

/-! Canonical forms of parameter objects, used to state which parameter
variations the signature is blind to. These are specification artifacts,
not part of the source. -/

mutual

/-- Canonical form reflecting exactly what the signature pipeline erases
below the top level: undefined-valued object fields disappear (as
`JSON.stringify` drops them), undefined array elements become null, keys
are sorted at every level. Null-valued fields are kept. -/
def canonJ : JValue → JValue
  | .undef => .null
  | .arr es => .arr (canonList es)
  | .obj fs => .obj (sortPairsByKey (canonFields fs))
  | .null => .null
  | .bool b => .bool b
  | .num n => .num n
  | .str s => .str s

def canonList : List JValue → List JValue
  | [] => []
  | v :: rest => canonJ v :: canonList rest

def canonFields : List (String × JValue) → List (String × JValue)
  | [] => []
  | (k, v) :: rest =>
    if v.isUndef then canonFields rest else (k, canonJ v) :: canonFields rest

end

/-- Canonical form of a whole parameter value as the signature sees it:
none for falsy parameters (bare-name signature), otherwise the canonical
form of the top-level-normalized value. -/
def canonSig (params : JValue) : Option JValue :=
  if !jsTruthy params then none else some (canonJ (normalizeParameters params))

mutual

/-- The normal form corresponding literally to the claimed equivalence:
null- and undefined-valued fields are dropped at every level and keys are
sorted at every level. Two parameter objects differ only in key order or
in the presence of null/undefined-valued fields (including inside nested
objects) exactly when their strip forms coincide. -/
def stripJ : JValue → JValue
  | .arr es => .arr (stripList es)
  | .obj fs => .obj (sortPairsByKey (stripFields fs))
  | .null => .null
  | .undef => .undef
  | .bool b => .bool b
  | .num n => .num n
  | .str s => .str s

def stripList : List JValue → List JValue
  | [] => []
  | v :: rest => stripJ v :: stripList rest

def stripFields : List (String × JValue) → List (String × JValue)
  | [] => []
  | (k, v) :: rest =>
    if v.isUndef || v.isNull then stripFields rest else (k, stripJ v) :: stripFields rest

end

/-- Well-formedness of JavaScript-originated data: object keys are
duplicate-free at every level (JavaScript objects cannot carry duplicate
keys). -/
def nodupB : List String → Bool
  | [] => true
  | k :: rest => !(rest.contains k) && nodupB rest

mutual

def wfJ : JValue → Bool
  | .arr es => wfList es
  | .obj fs => nodupB (fs.map Prod.fst) && wfFields fs
  | _ => true

def wfList : List JValue → Bool
  | [] => true
  | v :: rest => wfJ v && wfList rest

def wfFields : List (String × JValue) → Bool
  | [] => true
  | (_, v) :: rest => wfJ v && wfFields rest

end

/-! Lemmas about the signature pipeline, leading to the canonicalization
theorem: the serialized key-sorted form of a well-formed value is
determined by its canonical form. -/

theorem charListLe_cons_iff {a b : Char} {as bs : List Char} :
    charListLe (a :: as) (b :: bs) = true ↔
      a < b ∨ (a = b ∧ charListLe as bs = true) := by
  by_cases hab : a < b
  · simp [charListLe, hab]
  · by_cases hba : b < a
    · have hne : a ≠ b := ne_of_gt hba
      simp [charListLe, hab, hba, hne]
    · have heq : a = b := le_antisymm (not_lt.mp hba) (not_lt.mp hab)
      simp [charListLe, hab, hba, heq]

theorem charListLe_total : ∀ as bs : List Char,
    charListLe as bs = true ∨ charListLe bs as = true := by
  intro as
  induction as with
  | nil => intro bs; left; rfl
  | cons a as ih =>
    intro bs
    cases bs with
    | nil => right; rfl
    | cons b bs =>
      rcases lt_trichotomy a b with h | h | h
      · left; rw [charListLe_cons_iff]; exact Or.inl h
      · rcases ih bs with hl | hl
        · left; rw [charListLe_cons_iff]; exact Or.inr ⟨h, hl⟩
        · right; rw [charListLe_cons_iff]; exact Or.inr ⟨h.symm, hl⟩
      · right; rw [charListLe_cons_iff]; exact Or.inl h

theorem charListLe_trans : ∀ {as bs cs : List Char},
    charListLe as bs = true → charListLe bs cs = true → charListLe as cs = true := by
  intro as
  induction as with
  | nil => intro bs cs _ _; rfl
  | cons a as ih =>
    intro bs cs h₁ h₂
    cases bs with
    | nil => simp [charListLe] at h₁
    | cons b bs =>
      cases cs with
      | nil => simp [charListLe] at h₂
      | cons c cs =>
        rw [charListLe_cons_iff] at h₁ h₂ ⊢
        rcases h₁ with h₁ | ⟨rfl, h₁⟩
        · rcases h₂ with h₂ | ⟨rfl, h₂⟩
          · exact Or.inl (lt_trans h₁ h₂)
          · exact Or.inl h₁
        · rcases h₂ with h₂ | ⟨rfl, h₂⟩
          · exact Or.inl h₂
          · exact Or.inr ⟨rfl, ih h₁ h₂⟩

theorem charListLe_antisymm : ∀ {as bs : List Char},
    charListLe as bs = true → charListLe bs as = true → as = bs := by
  intro as
  induction as with
  | nil =>
    intro bs _ h₂
    cases bs with
    | nil => rfl
    | cons b bs => simp [charListLe] at h₂
  | cons a as ih =>
    intro bs h₁ h₂
    cases bs with
    | nil => simp [charListLe] at h₁
    | cons b bs =>
      rw [charListLe_cons_iff] at h₁ h₂
      rcases h₁ with h₁ | ⟨rfl, h₁⟩
      · rcases h₂ with h₂ | ⟨heq, _⟩
        · exact absurd h₂ (lt_asymm h₁)
        · exact absurd h₁ (heq ▸ lt_irrefl b)
      · rcases h₂ with h₂ | ⟨_, h₂⟩
        · exact absurd h₂ (lt_irrefl a)
        · rw [ih h₁ h₂]

theorem string_data_inj {a b : String} (h : a.data = b.data) : a = b := by
  cases a; cases b; exact congrArg String.mk h

instance : IsTotal (String × JValue) keyLE := ⟨fun a b => charListLe_total a.1.data b.1.data⟩

instance : IsTrans (String × JValue) keyLE := ⟨fun _ _ _ h₁ h₂ => charListLe_trans h₁ h₂⟩

theorem jsonObjMembers_eq_filter (l : List (String × JValue)) :
    jsonObjMembers l = (l.filter (fun kv => !kv.2.isUndef)).map
      (fun kv => escapeJsonString kv.1 ++ ":" ++ jsonStringify kv.2) := by
  induction l with
  | nil => simp [jsonObjMembers]
  | cons kv rest ih =>
    obtain ⟨k, v⟩ := kv
    by_cases h : v.isUndef
    · simp [jsonObjMembers, h, ih, List.filter_cons]
    · simp [jsonObjMembers, h, ih, List.filter_cons]

theorem sortObjectKeysFields_eq_map (l : List (String × JValue)) :
    sortObjectKeysFields l = l.map (fun kv => (kv.1, sortObjectKeys kv.2)) := by
  induction l with
  | nil => simp [sortObjectKeysFields]
  | cons kv rest ih => obtain ⟨k, v⟩ := kv; simp [sortObjectKeysFields, ih]

theorem canonFields_eq_filter_map (l : List (String × JValue)) :
    canonFields l = (l.filter (fun kv => !kv.2.isUndef)).map
      (fun kv => (kv.1, canonJ kv.2)) := by
  induction l with
  | nil => simp [canonFields]
  | cons kv rest ih =>
    obtain ⟨k, v⟩ := kv
    by_cases h : v.isUndef
    · simp [canonFields, h, ih, List.filter_cons]
    · simp [canonFields, h, ih, List.filter_cons]

theorem sortObjectKeys_isUndef (v : JValue) :
    (sortObjectKeys v).isUndef = v.isUndef := by
  cases v <;> simp [sortObjectKeys, JValue.isUndef]

theorem canonJ_isUndef (v : JValue) : (canonJ v).isUndef = false := by
  cases v <;> simp [canonJ, JValue.isUndef]

theorem nodupB_iff (l : List String) : nodupB l = true ↔ l.Nodup := by
  induction l with
  | nil => simp [nodupB]
  | cons k rest ih =>
    simp [nodupB, ih, List.nodup_cons, List.contains, List.elem_iff]

/-- Two sorted association lists that are permutations of each other and
have duplicate-free keys are equal. -/
theorem sorted_perm_eq_of_nodup_keys {l₁ l₂ : List (String × JValue)}
    (hp : l₁.Perm l₂) (hs₁ : l₁.Sorted keyLE) (hs₂ : l₂.Sorted keyLE)
    (hnd : (l₁.map Prod.fst).Nodup) : l₁ = l₂ := by
  haveI : IsAntisymm (String × JValue) (fun a b => keyLE a b ∧ a.1 ≠ b.1) :=
    ⟨fun _ _ h₁ h₂ => absurd (string_data_inj (charListLe_antisymm h₁.1 h₂.1)) h₁.2⟩
  have hnd₂ : (l₂.map Prod.fst).Nodup := ((hp.map Prod.fst).nodup_iff).mp hnd
  have hne₁ : l₁.Pairwise (fun a b => a.1 ≠ b.1) := List.pairwise_map.mp hnd
  have hne₂ : l₂.Pairwise (fun a b => a.1 ≠ b.1) := List.pairwise_map.mp hnd₂
  have hlt₁ : l₁.Pairwise (fun a b => keyLE a b ∧ a.1 ≠ b.1) := hs₁.and hne₁
  have hlt₂ : l₂.Pairwise (fun a b => keyLE a b ∧ a.1 ≠ b.1) := hs₂.and hne₂
  exact List.eq_of_perm_of_sorted hp hlt₁ hlt₂

/-- Filtering commutes with the key sort on lists with duplicate-free
keys. -/
theorem filter_sortPairsByKey (p : String × JValue → Bool)
    (l : List (String × JValue)) (hnd : (l.map Prod.fst).Nodup) :
    (sortPairsByKey l).filter p = sortPairsByKey (l.filter p) := by
  have hperm : ((sortPairsByKey l).filter p).Perm (sortPairsByKey (l.filter p)) := by
    have h₁ : ((sortPairsByKey l).filter p).Perm (l.filter p) :=
      (List.perm_insertionSort keyLE l).filter p
    have h₂ : (sortPairsByKey (l.filter p)).Perm (l.filter p) :=
      List.perm_insertionSort keyLE _
    exact h₁.trans h₂.symm
  have hs₁ : ((sortPairsByKey l).filter p).Sorted keyLE :=
    (List.sorted_insertionSort keyLE l).filter p
  have hs₂ : (sortPairsByKey (l.filter p)).Sorted keyLE :=
    List.sorted_insertionSort keyLE _
  have hnd' : (((sortPairsByKey l).filter p).map Prod.fst).Nodup := by
    have h₁ : ((sortPairsByKey l).map Prod.fst).Nodup :=
      ((List.perm_insertionSort keyLE l).map Prod.fst).nodup_iff.mpr hnd
    have hsub : ((sortPairsByKey l).filter p).Sublist (sortPairsByKey l) :=
      List.filter_sublist _
    exact (hsub.map Prod.fst).nodup h₁
  exact sorted_perm_eq_of_nodup_keys hperm hs₁ hs₂ hnd'

/-- The key sort commutes with mapping over the values. -/
theorem sortPairsByKey_map_val (g : JValue → JValue) (l : List (String × JValue)) :
    sortPairsByKey (l.map (fun kv => (kv.1, g kv.2))) =
      (sortPairsByKey l).map (fun kv => (kv.1, g kv.2)) := by
  exact (List.map_insertionSort keyLE keyLE (fun kv => (kv.1, g kv.2)) l
    (by intro a _ b _; simp [keyLE])).symm

theorem wfList_mem {l : List JValue} {v : JValue}
    (hl : wfList l = true) (hm : v ∈ l) : wfJ v = true := by
  induction l with
  | nil => cases hm
  | cons x rest ih =>
    simp only [wfList, Bool.and_eq_true] at hl
    rcases List.mem_cons.mp hm with h | h
    · exact h ▸ hl.1
    · exact ih hl.2 h

theorem wfFields_mem {l : List (String × JValue)} {kv : String × JValue}
    (hl : wfFields l = true) (hm : kv ∈ l) : wfJ kv.2 = true := by
  induction l with
  | nil => cases hm
  | cons x rest ih =>
    obtain ⟨k0, v0⟩ := x
    simp only [wfFields, Bool.and_eq_true] at hl
    rcases List.mem_cons.mp hm with h | h
    · rw [h]; exact hl.1
    · exact ih hl.2 h

theorem wfFields_iff (l : List (String × JValue)) :
    wfFields l = true ↔ ∀ kv ∈ l, wfJ kv.2 = true := by
  induction l with
  | nil => simp [wfFields]
  | cons x rest ih =>
    obtain ⟨k0, v0⟩ := x
    simp [wfFields, Bool.and_eq_true, ih]

theorem jsTruthy_isUndef {v : JValue} (h : jsTruthy v = true) :
    v.isUndef = false := by
  cases v <;> simp_all [jsTruthy, JValue.isUndef]

theorem normalizeParameters_isUndef (v : JValue) :
    (normalizeParameters v).isUndef = v.isUndef := by
  cases v <;> simp [normalizeParameters, JValue.isUndef]

theorem wfJ_normalizeParameters {v : JValue} (h : wfJ v = true) :
    wfJ (normalizeParameters v) = true := by
  cases v with
  | obj fs =>
    simp only [wfJ, Bool.and_eq_true, normalizeParameters] at h ⊢
    refine ⟨?_, ?_⟩
    · rw [nodupB_iff] at h ⊢
      exact ((List.filter_sublist fs).map Prod.fst).nodup h.1
    · rw [wfFields_iff] at h ⊢
      exact fun kv hkv => h.2 kv (List.mem_of_mem_filter hkv)
  | null => exact h
  | undef => exact h
  | bool b => exact h
  | num n => exact h
  | str s => exact h
  | arr es => exact h

theorem jsonArrMembers_congr (es : List JValue)
    (h : ∀ e ∈ es, e.isUndef = false →
      jsonStringify (sortObjectKeys e) = jsonStringify (canonJ e)) :
    jsonArrMembers (sortObjectKeysList es) = jsonArrMembers (canonList es) := by
  induction es with
  | nil => rfl
  | cons e rest ih =>
    have hrest := ih (fun x hx hxu => h x (List.mem_cons_of_mem _ hx) hxu)
    by_cases he : e.isUndef = true
    · have heq : e = .undef := by cases e <;> simp [JValue.isUndef] at he ⊢
      subst heq
      simp [sortObjectKeysList, canonList, jsonArrMembers, sortObjectKeys, canonJ,
        JValue.isUndef, jsonStringify, hrest]
    · have he' : e.isUndef = false := by simpa using he
      simp [sortObjectKeysList, canonList, jsonArrMembers, sortObjectKeys_isUndef,
        he', canonJ_isUndef, hrest, h e (List.mem_cons_self e rest) he']

theorem jsonObjMembers_congr (fs : List (String × JValue))
    (hnd : (fs.map Prod.fst).Nodup)
    (h : ∀ kv ∈ fs, kv.2.isUndef = false →
      jsonStringify (sortObjectKeys kv.2) = jsonStringify (canonJ kv.2)) :
    jsonObjMembers (sortPairsByKey (sortObjectKeysFields fs)) =
      jsonObjMembers (sortPairsByKey (canonFields fs)) := by
  rw [jsonObjMembers_eq_filter, jsonObjMembers_eq_filter,
    sortObjectKeysFields_eq_map, canonFields_eq_filter_map]
  have hndm : ((fs.map (fun kv => (kv.1, sortObjectKeys kv.2))).map Prod.fst).Nodup := by
    simpa [List.map_map, Function.comp] using hnd
  rw [filter_sortPairsByKey _ _ hndm]
  have hfilter : (fs.map (fun kv => (kv.1, sortObjectKeys kv.2))).filter
        (fun kv => !kv.2.isUndef)
      = (fs.filter (fun kv => !kv.2.isUndef)).map
        (fun kv => (kv.1, sortObjectKeys kv.2)) := by
    rw [List.filter_map]
    congr 1
    apply List.filter_congr
    intro kv _
    simp [Function.comp, sortObjectKeys_isUndef]
  rw [hfilter, sortPairsByKey_map_val, sortPairsByKey_map_val]
  have hcf : (List.map (fun kv => ((kv : String × JValue).1, canonJ kv.2))
        (sortPairsByKey (List.filter (fun kv => !kv.2.isUndef) fs))).filter
        (fun kv => !kv.2.isUndef)
      = List.map (fun kv => (kv.1, canonJ kv.2))
        (sortPairsByKey (List.filter (fun kv => !kv.2.isUndef) fs)) := by
    apply List.filter_eq_self.mpr
    intro kv hkv
    rcases List.mem_map.mp hkv with ⟨kv0, _, hkv0⟩
    rw [← hkv0]
    simp [canonJ_isUndef]
  rw [hcf, List.map_map, List.map_map]
  apply List.map_congr_left
  intro kv hkv
  have hmem : kv ∈ fs.filter (fun kv => !kv.2.isUndef) := by
    have : kv ∈ sortPairsByKey (fs.filter (fun kv => !kv.2.isUndef)) := hkv
    simpa [sortPairsByKey] using this
  have h2 : kv ∈ fs := List.mem_of_mem_filter hmem
  have h3 : kv.2.isUndef = false := by
    have := List.of_mem_filter hmem; simpa using this
  simp only [Function.comp]
  rw [h kv h2 h3]

/-- On well-formed non-undefined values, serializing the key-sorted form
is the same as serializing the canonical form (strong induction on size). -/
theorem jsonStringify_sortObjectKeys_canon :
    ∀ (n : Nat) (v : JValue), sizeOf v ≤ n → wfJ v = true → v.isUndef = false →
      jsonStringify (sortObjectKeys v) = jsonStringify (canonJ v) := by
  intro n
  induction n with
  | zero =>
    intro v hsz _ _
    exfalso
    cases v <;> simp at hsz
  | succ n ih =>
    intro v hsz hwf hund
    cases v with
    | null => rfl
    | undef => simp [JValue.isUndef] at hund
    | bool b => rfl
    | num m => rfl
    | str s => rfl
    | arr es =>
      have hmem : ∀ e ∈ es, e.isUndef = false →
          jsonStringify (sortObjectKeys e) = jsonStringify (canonJ e) := by
        intro e he heu
        have h1 := List.sizeOf_lt_of_mem he
        have h2 : sizeOf (JValue.arr es) = 1 + sizeOf es := by simp
        have hse : sizeOf e ≤ n := by omega
        have hwe : wfJ e = true := wfList_mem (by simpa [wfJ] using hwf) he
        exact ih e hse hwe heu
      simp only [sortObjectKeys, canonJ, jsonStringify]
      rw [jsonArrMembers_congr es hmem]
    | obj fs =>
      have hwf' := hwf
      simp only [wfJ, Bool.and_eq_true] at hwf'
      have hnd : (fs.map Prod.fst).Nodup := (nodupB_iff _).mp hwf'.1
      have hmem : ∀ kv ∈ fs, kv.2.isUndef = false →
          jsonStringify (sortObjectKeys kv.2) = jsonStringify (canonJ kv.2) := by
        intro kv hkv hku
        have h1 := List.sizeOf_lt_of_mem hkv
        have h2 : sizeOf (JValue.obj fs) = 1 + sizeOf fs := by simp
        have h3 : sizeOf kv = 1 + sizeOf kv.1 + sizeOf kv.2 := by
          obtain ⟨a, b⟩ := kv; simp
        have hse : sizeOf kv.2 ≤ n := by omega
        exact ih kv.2 hse (wfFields_mem hwf'.2 hkv) hku
      simp only [sortObjectKeys, canonJ, jsonStringify]
      rw [jsonObjMembers_congr fs hnd hmem]

theorem jsonStringify_sortObjectKeys_canonJ (v : JValue)
    (hwf : wfJ v = true) (hund : v.isUndef = false) :
    jsonStringify (sortObjectKeys v) = jsonStringify (canonJ v) :=
  jsonStringify_sortObjectKeys_canon (sizeOf v) v le_rfl hwf hund

/-- C5 (counterexample): the claim is false as stated. The parameter
objects a = obj(a ↦ obj(b ↦ null)) and b = obj(a ↦ obj())
differ only in the presence of a null-valued field inside a nested object
(their strip forms, which drop null/undefined fields at every depth and
sort keys, coincide), yet their dedup signatures differ, because
`normalizeParameters` drops null fields only at the top level and
`JSON.stringify` keeps nested nulls. -/
theorem c5_counterexample :
    stripJ (JValue.obj [("a", .obj [("b", .null)])])
        = stripJ (JValue.obj [("a", .obj [])]) ∧
      createToolSignature "read" (JValue.obj [("a", .obj [("b", .null)])])
        ≠ createToolSignature "read" (JValue.obj [("a", .obj [])]) := by
  exact ⟨rfl, by decide⟩

/-- C5 (amended): the dedup signature is unchanged by key reordering at
any depth, by the presence of null- or undefined-valued fields at the top
level, and by the presence of undefined-valued fields (or undefined array
elements, which serialize as null) at any depth — that is, by any
difference that preserves the canonical form `canonSig`. Nested
null-valued fields, by contrast, are part of the signature. Parameter
objects are well-formed (duplicate-free keys), as JavaScript objects
always are. -/
theorem c5_signature_stable (tool : String) (x y : JValue)
    (hx : wfJ x = true) (hy : wfJ y = true) (h : canonSig x = canonSig y) :
    createToolSignature tool x = createToolSignature tool y := by
  by_cases htx : jsTruthy x
  · by_cases hty : jsTruthy y
    · have hcanon : canonJ (normalizeParameters x) = canonJ (normalizeParameters y) := by
        simpa [canonSig, htx, hty] using h
      have ex := jsonStringify_sortObjectKeys_canonJ (normalizeParameters x)
        (wfJ_normalizeParameters hx)
        (by rw [normalizeParameters_isUndef]; exact jsTruthy_isUndef htx)
      have ey := jsonStringify_sortObjectKeys_canonJ (normalizeParameters y)
        (wfJ_normalizeParameters hy)
        (by rw [normalizeParameters_isUndef]; exact jsTruthy_isUndef hty)
      simp only [createToolSignature, htx, hty, Bool.not_true, if_false]
      rw [ex, ey, hcanon]
    · simp [canonSig, htx, hty] at h
  · by_cases hty : jsTruthy y
    · simp [canonSig, htx, hty] at h
    · simp [createToolSignature, htx, hty]

/-- C5 (witness): two concrete parameter objects differing in key order
and in a top-level null field get the same signature. -/
theorem c5_signature_stable_witness :
    createToolSignature "read" (JValue.obj [("y", .str "s"), ("x", .num 1), ("z", .null)])
      = createToolSignature "read" (JValue.obj [("x", .num 1), ("y", .str "s")]) :=
  c5_signature_stable "read" _ _ (by decide) (by decide) (by rfl)

/-! The host message model (spec section 3): each message carries an info
record and a list of parts. The optional `summary` flag is modelled as a
Bool that is false when the flag is absent, matching the
`msg.info.summary === true` checks of the source. -/

structure MessageInfo where
  id : String
  role : String
  sessionID : String
  timeCreated : Int
  summary : Bool
deriving DecidableEq

structure ToolCallState where
  status : String
  input : JValue
  output : JValue
  error : JValue

inductive Part where
  | text (text : String) : Part
  | tool (callID : String) (tool : String) (state : ToolCallState) : Part
  | stepStart : Part
  | other : Part

structure WithParts where
  info : MessageInfo
  parts : List Part

/-! The session state of the current revision (src/lib/state):
`toolParameters` is a JS Map (association list in insertion order),
`prune.toolIds` and `prune.messageIds` are JS Sets (duplicate-free lists
in insertion order), `compressSummaries` is an array. -/

structure ToolParameterEntry where
  tool : String
  parameters : JValue
  status : String
  error : JValue

structure CompressSummary where
  anchorMessageId : String
  summary : String
deriving DecidableEq

structure PruneState where
  toolIds : List String
  messageIds : List String
deriving DecidableEq

structure SessionStats where
  pruneTokenCounter : Nat
  totalPruneTokens : Nat
deriving DecidableEq

structure SessionState where
  toolParameters : List (String × ToolParameterEntry)
  toolIdList : List String
  prune : PruneState
  compressSummaries : List CompressSummary
  stats : SessionStats
  nudgeCounter : Nat
  lastToolPrune : Bool
  lastCompaction : Int

/-! JS Map and Set operations on the association-list model. -/

def mapHas (m : List (String × α)) (k : String) : Bool :=
  m.any (fun kv => kv.1 == k)

def mapGet (m : List (String × α)) (k : String) : Option α :=
  (m.find? (fun kv => kv.1 == k)).map (fun kv => kv.2)

def mapSet (m : List (String × α)) (k : String) (v : α) : List (String × α) :=
  match m with
  | [] => [(k, v)]
  | kv :: rest => if kv.1 == k then (k, v) :: rest else kv :: mapSet rest k v

def mapDelete (m : List (String × α)) (k : String) : List (String × α) :=
  m.eraseP (fun kv => kv.1 == k)

def setAdd (s : List String) (x : String) : List String :=
  if s.contains x then s else s ++ [x]

/-! State utilities from src/lib/state/utils.ts and src/unnamed/part_008. -/

/-- The `findLastCompactionTimestamp` of state/utils.ts: scanning the
transcript from newest to oldest, the creation time of the first
assistant message flagged summary=true, or 0 when there is none. -/
def findLastCompactionTimestamp (messages : List WithParts) : Int :=
  match messages.reverse.find? (fun m => m.info.role == "assistant" && m.info.summary) with
  | some m => m.info.timeCreated
  | none => 0

/-- The `resetOnCompaction` of state/utils.ts. -/
def resetOnCompaction (state : SessionState) : SessionState :=
  { state with
    toolParameters := []
    prune := { toolIds := [], messageIds := [] }
    compressSummaries := []
    nudgeCounter := 0
    lastToolPrune := false }

/-- The `isMessageCompacted` of src/lib/shared-utils.ts. -/
def isMessageCompacted (state : SessionState) (msg : WithParts) : Bool :=
  if msg.info.timeCreated < state.lastCompaction then true
  else if state.prune.messageIds.contains msg.info.id then true
  else false

/-- Modelled from the spec: the compaction branch of the session check.
The source revision that connects `findLastCompactionTimestamp` to
`resetOnCompaction` (the current `checkSession` of src/lib/state) is not
under src/; only an older checkSession (src/unnamed/part_008, whose state
predates `prune.messageIds` and `compressSummaries`) and the two helpers
are. Per spec section 4.1, when the scan finds an assistant message
flagged summary=true with `time.created > state.lastCompaction`, the
timestamp is recorded and `resetOnCompaction` clears the tool caches and
prune sets. -/
def checkSessionCompaction (state : SessionState) (messages : List WithParts) :
    SessionState :=
  let lastCompactionTimestamp := findLastCompactionTimestamp messages
  if lastCompactionTimestamp > state.lastCompaction then
    resetOnCompaction { state with lastCompaction := lastCompactionTimestamp }
  else state

/-! The plugin configuration, restricted to the fields the embedded code
reads: the protected tool list consulted by the tool-cache sync
(config.strategies.pruneTool.protectedTools), the supersede-writes toggle
(config.strategies.supersedeWrites.enabled), and the protected file
patterns. -/

structure PruneToolSettings where
  protectedTools : List String

structure SupersedeWritesSettings where
  enabled : Bool

structure StrategiesConfig where
  pruneTool : PruneToolSettings
  supersedeWrites : SupersedeWritesSettings

structure PluginConfig where
  strategies : StrategiesConfig
  protectedFilePatterns : List String

/-! Tool cache sync from src/lib/state/utils.ts (lines 58-115). -/

def MAX_TOOL_CACHE_SIZE : Nat := 500

/-- The `trimToolParametersCache` of state/utils.ts: when the cache holds
more than 500 entries, the oldest entries beyond 500 are deleted, in FIFO
order, with no regard to `prune.toolIds`. -/
def trimToolParametersCache (state : SessionState) : SessionState :=
  if state.toolParameters.length ≤ MAX_TOOL_CACHE_SIZE then state
  else
    let keysToRemove := (state.toolParameters.map Prod.fst).take
      (state.toolParameters.length - MAX_TOOL_CACHE_SIZE)
    { state with
      toolParameters := keysToRemove.foldl (fun m k => mapDelete m k) state.toolParameters }

/-- One step of the `syncToolCache` loop of state/utils.ts: a tool part
with a truthy callID that is not yet cached is inserted (with
`state.input ?? {}` as parameters and the error kept only for error
status), bumps the nudge counter unless the tool is protected, and sets
`lastToolPrune` to whether the tool is the prune tool. -/
def syncPart (config : PluginConfig) (state : SessionState) (part : Part) :
    SessionState :=
  match part with
  | .tool callID toolName toolState =>
    if callID == "" then state
    else if mapHas state.toolParameters callID then state
    else
      let entry : ToolParameterEntry :=
        { tool := toolName
          parameters :=
            match toolState.input with
            | .null => .obj []
            | .undef => .obj []
            | v => v
          status := toolState.status
          error := if toolState.status == "error" then toolState.error else .undef }
      let st₁ := { state with toolParameters := mapSet state.toolParameters callID entry }
      let st₂ :=
        if config.strategies.pruneTool.protectedTools.contains toolName then st₁
        else { st₁ with nudgeCounter := st₁.nudgeCounter + 1 }
      { st₂ with lastToolPrune := toolName == "prune" }
  | _ => state

/-- The `syncToolCache` of state/utils.ts: every tool part of the
transcript is offered to the cache in order, then the FIFO trim runs. -/
def syncToolCache (state : SessionState) (config : PluginConfig)
    (messages : List WithParts) : SessionState :=
  trimToolParametersCache
    (messages.foldl (fun s msg => msg.parts.foldl (syncPart config) s) state)

/-- C1: when the session check observes an assistant message flagged
summary=true whose creation time is strictly greater than
`state.lastCompaction` (the scan from newest to oldest returns that
message's timestamp), then after the check the `toolParameters` map, both
prune sets, the compress summaries and the nudge counter are all
empty/zero. The compaction branch itself is modelled from the spec (see
`checkSessionCompaction`); the clearing is the in-source
`resetOnCompaction`. -/
theorem c1_compaction_clears (state : SessionState) (messages : List WithParts)
    (msg : WithParts) (hmem : msg ∈ messages)
    (hrole : msg.info.role = "assistant") (hsum : msg.info.summary = true)
    (hobs : findLastCompactionTimestamp messages = msg.info.timeCreated)
    (ht : state.lastCompaction < msg.info.timeCreated) :
    (checkSessionCompaction state messages).toolParameters = [] ∧
      (checkSessionCompaction state messages).prune.toolIds = [] ∧
      (checkSessionCompaction state messages).prune.messageIds = [] ∧
      (checkSessionCompaction state messages).compressSummaries = [] ∧
      (checkSessionCompaction state messages).nudgeCounter = 0 := by
  have hgt : findLastCompactionTimestamp messages > state.lastCompaction := by
    rw [hobs]; exact ht
  simp [checkSessionCompaction, hgt, resetOnCompaction]

/-- A concrete populated session state used to exhibit the compaction
reset on an explicit input. -/
def compactionDemoState : SessionState :=
  { toolParameters := [("a", { tool := "read", parameters := .obj []
                               status := "completed", error := .undef })]
    toolIdList := ["a"]
    prune := { toolIds := ["a"], messageIds := ["m0"] }
    compressSummaries := [{ anchorMessageId := "m0", summary := "old" }]
    stats := { pruneTokenCounter := 0, totalPruneTokens := 0 }
    nudgeCounter := 3
    lastToolPrune := true
    lastCompaction := 0 }

/-- A concrete compaction message (assistant, summary=true, t=5). -/
def compactionDemoMsg : WithParts :=
  { info := { id := "m1", role := "assistant", sessionID := "s"
              timeCreated := 5, summary := true }
    parts := [] }

/-- C1 (witness): a concrete session whose caches are all non-empty is
fully cleared by a fresh compaction message. -/
theorem c1_compaction_clears_witness :
    (checkSessionCompaction compactionDemoState [compactionDemoMsg]).toolParameters = [] ∧
      (checkSessionCompaction compactionDemoState [compactionDemoMsg]).prune.toolIds = [] ∧
      (checkSessionCompaction compactionDemoState [compactionDemoMsg]).prune.messageIds = [] ∧
      (checkSessionCompaction compactionDemoState [compactionDemoMsg]).compressSummaries = [] ∧
      (checkSessionCompaction compactionDemoState [compactionDemoMsg]).nudgeCounter = 0 :=
  c1_compaction_clears compactionDemoState [compactionDemoMsg] compactionDemoMsg
    (List.mem_singleton_self _) rfl rfl rfl (by decide)

/-! Infrastructure for reasoning about the tool-cache sync loop. -/

/-- All parts of a transcript in visit order (the nested message/part
loop of syncToolCache visits exactly this flat list). -/
def allParts (messages : List WithParts) : List Part :=
  (messages.map (fun m => m.parts)).flatten

theorem syncFold_eq_allParts (config : PluginConfig) (state : SessionState)
    (messages : List WithParts) :
    messages.foldl (fun s msg => msg.parts.foldl (syncPart config) s) state
      = (allParts messages).foldl (syncPart config) state := by
  rw [allParts, List.foldl_flatten, List.foldl_map]

/-- The sequence of (callID, tool) pairs that a sync over `parts` inserts
into a cache whose current keys are `keys`, in insertion order. -/
def cachedNewParts (keys : List String) : List Part → List (String × String)
  | [] => []
  | .tool cid tname _ :: rest =>
    if cid == "" then cachedNewParts keys rest
    else if keys.contains cid then cachedNewParts keys rest
    else (cid, tname) :: cachedNewParts (keys ++ [cid]) rest
  | .text _ :: rest => cachedNewParts keys rest
  | .stepStart :: rest => cachedNewParts keys rest
  | .other :: rest => cachedNewParts keys rest

theorem mapHas_eq_keys_contains (m : List (String × α)) (k : String) :
    mapHas m k = (m.map Prod.fst).contains k := by
  induction m with
  | nil => rfl
  | cons kv rest ih =>
    simp only [mapHas, List.any_cons, List.map_cons, List.contains_cons] at *
    rw [← ih]
    rcases h : kv.1 == k with _ | _
    · have h' : (k == kv.1) = false := by
        rcases h2 : k == kv.1 with _ | _
        · rfl
        · rw [beq_iff_eq] at h2; rw [h2] at h; simp at h
      simp [h, h', mapHas]
    · rw [beq_iff_eq] at h
      simp [h, mapHas]

theorem mapSet_keys_of_not_has (m : List (String × α)) (k : String) (v : α)
    (h : mapHas m k = false) :
    (mapSet m k v).map Prod.fst = m.map Prod.fst ++ [k] := by
  induction m with
  | nil => rfl
  | cons kv rest ih =>
    simp only [mapHas, List.any_cons, Bool.or_eq_false_iff] at h
    simp [mapSet, h.1, ih (by simpa [mapHas] using h.2)]

/-- The cache keys after a sync step: unchanged for parts that are not
cached, extended by the callID for a newly cached part. -/
theorem syncPart_toolParameters_keys (config : PluginConfig) (state : SessionState)
    (cid tname : String) (tstate : ToolCallState)
    (h0 : (cid == "") = false)
    (h1 : mapHas state.toolParameters cid = false) :
    ((syncPart config state (.tool cid tname tstate)).toolParameters.map Prod.fst
        = state.toolParameters.map Prod.fst ++ [cid])
      ∧ (syncPart config state (.tool cid tname tstate)).lastToolPrune
        = (tname == "prune") := by
  simp only [syncPart, h0, h1, Bool.false_eq_true, if_false]
  by_cases hp : tname ∈ config.strategies.pruneTool.protectedTools
  · simp [hp, mapSet_keys_of_not_has state.toolParameters cid _ h1]
  · simp [hp, mapSet_keys_of_not_has state.toolParameters cid _ h1]

/-- After folding the sync step over a list of parts, `lastToolPrune`
reflects exactly the last newly cached tool part: it is unchanged when
nothing new was cached, and otherwise records whether the last newly
cached part is the prune tool. -/
theorem syncParts_lastToolPrune (config : PluginConfig) :
    ∀ (parts : List Part) (state : SessionState),
      (parts.foldl (syncPart config) state).lastToolPrune =
        match (cachedNewParts (state.toolParameters.map Prod.fst) parts).getLast? with
        | none => state.lastToolPrune
        | some p => p.2 == "prune" := by
  intro parts
  induction parts with
  | nil => intro state; rfl
  | cons part rest ih =>
    intro state
    cases part with
    | text t => simpa [cachedNewParts, syncPart] using ih state
    | stepStart => simpa [cachedNewParts, syncPart] using ih state
    | other => simpa [cachedNewParts, syncPart] using ih state
    | tool cid tname tstate =>
      rcases h0 : cid == "" with _ | _
      · rcases h1 : mapHas state.toolParameters cid with _ | _
        · -- newly cached
          have hkeys := syncPart_toolParameters_keys config state cid tname tstate h0 h1
          have hcontains : (state.toolParameters.map Prod.fst).contains cid = false := by
            rw [← mapHas_eq_keys_contains]; exact h1
          rw [List.foldl_cons, ih _]
          simp only [cachedNewParts, h0, hcontains, Bool.false_eq_true, if_false,
            hkeys.1]
          rcases hrest : cachedNewParts (state.toolParameters.map Prod.fst ++ [cid]) rest with
            _ | ⟨q, qs⟩
          · simp [hrest, hkeys.2]
          · have hsome : (q :: qs).getLast?.isSome := by
              rw [List.getLast?_isSome]; simp
            obtain ⟨p2, hp2⟩ := Option.isSome_iff_exists.mp hsome
            simp [hrest, hp2]
        · -- already cached: step is the identity
          have hstep : syncPart config state (.tool cid tname tstate) = state := by
            simp [syncPart, h0, h1]
          have hcontains : (state.toolParameters.map Prod.fst).contains cid = true := by
            rw [← mapHas_eq_keys_contains]; exact h1
          rw [List.foldl_cons, hstep, ih state]
          simp only [cachedNewParts, h0, Bool.false_eq_true, if_false]
          rw [if_pos hcontains]
      · -- falsy callID: step is the identity
        have hstep : syncPart config state (.tool cid tname tstate) = state := by
          simp [syncPart, h0]
        rw [List.foldl_cons, hstep, ih state]
        simp [cachedNewParts, h0]

theorem trim_lastToolPrune (state : SessionState) :
    (trimToolParametersCache state).lastToolPrune = state.lastToolPrune := by
  unfold trimToolParametersCache
  split <;> rfl

/-- C7 (amended): after a tool-cache sync that caches at least one new
tool part, `state.lastToolPrune` is true if and only if the most recently
cached new tool part is the `prune` tool — not any of prune, distill or
compress: the source compares the tool name against "prune" alone. -/
theorem c7_lastToolPrune_amended (state : SessionState) (config : PluginConfig)
    (messages : List WithParts) (p : String × String)
    (h : (cachedNewParts (state.toolParameters.map Prod.fst)
      (allParts messages)).getLast? = some p) :
    ((syncToolCache state config messages).lastToolPrune = true ↔ p.2 = "prune") := by
  unfold syncToolCache
  rw [trim_lastToolPrune, syncFold_eq_allParts,
    syncParts_lastToolPrune config (allParts messages) state, h]
  simp

/-- C7 (witness): a sync whose only new tool part is a prune call sets
the flag. -/
theorem c7_lastToolPrune_amended_witness :
    ((syncToolCache compactionDemoState
        { strategies := { pruneTool := { protectedTools := [] }
                          supersedeWrites := { enabled := true } }
          protectedFilePatterns := [] }
        [{ info := { id := "m2", role := "assistant", sessionID := "s"
                     timeCreated := 6, summary := false }
           parts := [.tool "c9" "prune"
             { status := "completed", input := .obj [], output := .str "ok"
               error := .undef }] }]).lastToolPrune = true ↔ "prune" = "prune") :=
  c7_lastToolPrune_amended _ _ _ ("c9", "prune") rfl

/-- C7 (counterexample): the claim as stated is false. In a session with
an empty cache, syncing a transcript whose only (hence most recent) new
tool part is a `distill` call leaves `lastToolPrune` false, although the
claim requires it to be true for distill. -/
theorem c7_counterexample :
    (cachedNewParts ([] : List String)
        (allParts [{ info := { id := "m1", role := "assistant", sessionID := "s"
                               timeCreated := 1, summary := false }
                     parts := [.tool "c1" "distill"
                       { status := "completed", input := .obj [], output := .str "ok"
                         error := .undef }] }]) = [("c1", "distill")])
      ∧ (syncToolCache
          { toolParameters := [], toolIdList := [],
            prune := { toolIds := [], messageIds := [] }
            compressSummaries := []
            stats := { pruneTokenCounter := 0, totalPruneTokens := 0 }
            nudgeCounter := 0, lastToolPrune := false, lastCompaction := 0 }
          { strategies := { pruneTool := { protectedTools := [] }
                            supersedeWrites := { enabled := true } }
            protectedFilePatterns := [] }
          [{ info := { id := "m1", role := "assistant", sessionID := "s"
                       timeCreated := 1, summary := false }
             parts := [.tool "c1" "distill"
               { status := "completed", input := .obj [], output := .str "ok"
                 error := .undef }] }]).lastToolPrune = false :=
  ⟨rfl, rfl⟩

/-! FIFO trimming of the tool cache (C8, C9). -/

theorem foldl_mapDelete_take (α : Type) :
    ∀ (m : List (String × α)), (m.map Prod.fst).Nodup → ∀ (n : Nat),
      ((m.map Prod.fst).take n).foldl (fun acc k => mapDelete acc k) m = m.drop n := by
  intro m
  induction m with
  | nil => intro _ n; simp
  | cons kv rest ih =>
    intro hnd n
    cases n with
    | zero => simp
    | succ n =>
      simp only [List.map_cons, List.take_succ_cons, List.foldl_cons]
      have hdel : mapDelete (kv :: rest) kv.1 = rest := by
        simp [mapDelete, List.eraseP_cons]
      rw [hdel]
      have hnd' : (rest.map Prod.fst).Nodup := by
        simp only [List.map_cons, List.nodup_cons] at hnd
        exact hnd.2
      rw [ih hnd' n, List.drop_succ_cons]

set_option maxRecDepth 4000 in
/-- The trim is a plain drop of the oldest entries beyond the cache
bound, and touches nothing but the tool-parameters map. -/
theorem trim_toolParameters_eq (state : SessionState)
    (hnd : (state.toolParameters.map Prod.fst).Nodup) :
    trimToolParametersCache state
      = { state with
          toolParameters := state.toolParameters.drop
            (state.toolParameters.length - MAX_TOOL_CACHE_SIZE) } := by
  unfold trimToolParametersCache
  by_cases hle : state.toolParameters.length ≤ MAX_TOOL_CACHE_SIZE
  · rw [if_pos hle]
    have h0 : state.toolParameters.length - MAX_TOOL_CACHE_SIZE = 0 :=
      Nat.sub_eq_zero_of_le hle
    rw [h0, List.drop_zero]
  · have hfold := foldl_mapDelete_take _ state.toolParameters hnd
      (state.toolParameters.length - MAX_TOOL_CACHE_SIZE)
    rw [if_neg hle]
    simp only [hfold]

set_option maxRecDepth 4000 in
/-- C8 (amended): the trim of the tool-parameters cache is a plain FIFO
eviction: when the cache holds at most 500 entries nothing is removed,
and when it holds n > 500 entries the n − 500 oldest entries are removed
— with no regard to `prune.toolIds`, which the trim never consults (an id
referenced by `prune.toolIds` can therefore be evicted; the prune sets
themselves are untouched). Cache keys are duplicate-free, as JS Map keys
always are. -/
theorem c8_trim_plain_fifo (state : SessionState)
    (hnd : (state.toolParameters.map Prod.fst).Nodup) :
    (trimToolParametersCache state).toolParameters
        = state.toolParameters.drop
            (state.toolParameters.length - MAX_TOOL_CACHE_SIZE)
      ∧ (trimToolParametersCache state).prune = state.prune := by
  rw [trim_toolParameters_eq state hnd]
  exact ⟨rfl, rfl⟩

/-- C8 (witness): the trim leaves a small cache untouched. -/
theorem c8_trim_plain_fifo_witness :
    (trimToolParametersCache compactionDemoState).toolParameters
        = compactionDemoState.toolParameters.drop
            (compactionDemoState.toolParameters.length - MAX_TOOL_CACHE_SIZE)
      ∧ (trimToolParametersCache compactionDemoState).prune
        = compactionDemoState.prune :=
  c8_trim_plain_fifo compactionDemoState (by decide)

/-- A cache entry used to populate demonstration states. -/
def demoEntry : ToolParameterEntry :=
  { tool := "read", parameters := .obj [], status := "completed", error := .undef }

/-- A session state holding 501 cached tool entries whose oldest id a0 is
referenced by `prune.toolIds`. -/
def overflowStateA : SessionState :=
  { toolParameters := (List.range 501).map (fun i => ("a" ++ toString i, demoEntry))
    toolIdList := []
    prune := { toolIds := ["a0"], messageIds := [] }
    compressSummaries := []
    stats := { pruneTokenCounter := 0, totalPruneTokens := 0 }
    nudgeCounter := 0
    lastToolPrune := false
    lastCompaction := 0 }

set_option maxRecDepth 100000 in
/-- C8 (counterexample): the claim as stated is false. In a session whose
cache holds 501 entries with the oldest id a0 referenced by
`prune.toolIds`, a tool-cache sync (here over an empty transcript) evicts
a0 even though it is referenced: the id was in the cache before the sync
and is gone afterwards. -/
theorem c8_counterexample :
    overflowStateA.prune.toolIds.contains "a0" = true
      ∧ mapHas overflowStateA.toolParameters "a0" = true
      ∧ mapHas (syncToolCache overflowStateA
          { strategies := { pruneTool := { protectedTools := [] }
                            supersedeWrites := { enabled := true } }
            protectedFilePatterns := [] } []).toolParameters "a0" = false :=
  ⟨rfl, by decide, by decide⟩

/-! Frame behaviour of the tool-cache sync on existing entries (C9). -/

theorem mapGet_cons (kv : String × α) (rest : List (String × α)) (id : String) :
    mapGet (kv :: rest) id = if kv.1 == id then some kv.2 else mapGet rest id := by
  by_cases h : (kv.1 == id) = true
  · simp [mapGet, List.find?_cons_of_pos, h]
  · rw [if_neg (by simpa using h)]
    have h' : ¬((fun x : String × α => x.1 == id) kv = true) := by simpa using h
    unfold mapGet
    rw [@List.find?_cons_of_neg _ (fun x : String × α => x.1 == id) kv rest h']

theorem mapHas_cons (kv : String × α) (rest : List (String × α)) (id : String) :
    mapHas (kv :: rest) id = ((kv.1 == id) || mapHas rest id) := by
  simp [mapHas]

theorem mapGet_none_of_not_mem_keys {m : List (String × α)} {id : String}
    (h : id ∉ m.map Prod.fst) : mapGet m id = none := by
  induction m with
  | nil => rfl
  | cons kv rest ih =>
    simp only [List.map_cons, List.mem_cons] at h
    push_neg at h
    rw [mapGet_cons]
    have hne : (kv.1 == id) = false := by
      rcases hb : kv.1 == id with _ | _
      · rfl
      · rw [beq_iff_eq] at hb; exact absurd hb.symm h.1
    rw [hne]
    simp only [Bool.false_eq_true, if_false]
    exact ih h.2

theorem mapGet_drop_none {m : List (String × α)} {id : String}
    (h : mapGet m id = none) : ∀ n, mapGet (m.drop n) id = none := by
  induction m with
  | nil => intro n; simp [mapGet]
  | cons kv rest ih =>
    intro n
    cases n with
    | zero => exact h
    | succ n =>
      rw [List.drop_succ_cons]
      rw [mapGet_cons] at h
      rcases hb : kv.1 == id with _ | _
      · rw [hb] at h
        simp only [Bool.false_eq_true, if_false] at h
        exact ih h n
      · rw [hb] at h; simp at h

theorem mapGet_drop_or {m : List (String × α)} {id : String} {e : α}
    (hnd : (m.map Prod.fst).Nodup) (hid : mapGet m id = some e) :
    ∀ n, mapGet (m.drop n) id = none ∨ mapGet (m.drop n) id = some e := by
  induction m with
  | nil => simp [mapGet] at hid
  | cons kv rest ih =>
    intro n
    cases n with
    | zero => right; exact hid
    | succ n =>
      rw [List.drop_succ_cons]
      simp only [List.map_cons, List.nodup_cons] at hnd
      rw [mapGet_cons] at hid
      rcases hb : kv.1 == id with _ | _
      · rw [hb] at hid
        simp only [Bool.false_eq_true, if_false] at hid
        exact ih hnd.2 hid n
      · left
        rw [beq_iff_eq] at hb
        have hnotin : id ∉ rest.map Prod.fst := hb ▸ hnd.1
        exact mapGet_drop_none (mapGet_none_of_not_mem_keys hnotin) n

theorem mapGet_mapSet_preserve {m : List (String × α)} {k : String} {v : α}
    {id : String} {e : α} (hk : mapHas m k = false)
    (hid : mapGet m id = some e) : mapGet (mapSet m k v) id = some e := by
  induction m with
  | nil => simp [mapGet] at hid
  | cons kv rest ih =>
    rw [mapHas_cons, Bool.or_eq_false_iff] at hk
    rw [mapGet_cons] at hid
    simp only [mapSet, hk.1, Bool.false_eq_true, if_false]
    rw [mapGet_cons]
    rcases hb : kv.1 == id with _ | _
    · rw [hb] at hid
      simp only [Bool.false_eq_true, if_false] at hid ⊢
      exact ih hk.2 hid
    · rw [hb] at hid
      simpa using hid

theorem syncPart_preserve_mapGet (config : PluginConfig) (part : Part)
    (state : SessionState) {id : String} {e : ToolParameterEntry}
    (hid : mapGet state.toolParameters id = some e) :
    mapGet (syncPart config state part).toolParameters id = some e := by
  cases part with
  | text t => exact hid
  | stepStart => exact hid
  | other => exact hid
  | tool cid tname tstate =>
    rcases h0 : cid == "" with _ | _
    · rcases h1 : mapHas state.toolParameters cid with _ | _
      · simp only [syncPart, h0, h1, Bool.false_eq_true, if_false]
        split <;> exact mapGet_mapSet_preserve h1 hid
      · simp [syncPart, h0, h1, hid]
    · simp [syncPart, h0, hid]

theorem syncParts_preserve_mapGet (config : PluginConfig) :
    ∀ (parts : List Part) (state : SessionState) {id : String} {e : ToolParameterEntry},
      mapGet state.toolParameters id = some e →
      mapGet ((parts.foldl (syncPart config) state)).toolParameters id = some e := by
  intro parts
  induction parts with
  | nil => intro state id e hid; exact hid
  | cons part rest ih =>
    intro state id e hid
    exact ih _ (syncPart_preserve_mapGet config part state hid)

theorem syncPart_keys_nodup (config : PluginConfig) (part : Part)
    (state : SessionState)
    (h : (state.toolParameters.map Prod.fst).Nodup) :
    ((syncPart config state part).toolParameters.map Prod.fst).Nodup := by
  cases part with
  | text t => exact h
  | stepStart => exact h
  | other => exact h
  | tool cid tname tstate =>
    rcases h0 : cid == "" with _ | _
    · rcases h1 : mapHas state.toolParameters cid with _ | _
      · have hkeys := (syncPart_toolParameters_keys config state cid tname tstate h0 h1).1
        rw [hkeys]
        have hnotin : cid ∉ state.toolParameters.map Prod.fst := by
          intro hmem
          have : mapHas state.toolParameters cid = true := by
            rw [mapHas_eq_keys_contains]
            exact List.elem_iff.mpr hmem
          rw [this] at h1; cases h1
        simp [List.nodup_append, h, hnotin]
      · simpa [syncPart, h0, h1] using h
    · simpa [syncPart, h0] using h

theorem syncParts_keys_nodup (config : PluginConfig) :
    ∀ (parts : List Part) (state : SessionState),
      (state.toolParameters.map Prod.fst).Nodup →
      (((parts.foldl (syncPart config) state)).toolParameters.map Prod.fst).Nodup := by
  intro parts
  induction parts with
  | nil => intro state h; exact h
  | cons part rest ih =>
    intro state h
    exact ih _ (syncPart_keys_nodup config part state h)

set_option maxRecDepth 4000 in
/-- C9 (amended): once a callID is cached in `toolParameters`, a
tool-cache sync never overwrites the entry: the sync loop skips every
already-cached callID, so after any sync the entry is either still
present with exactly its first-cached tool, parameters, status and error
— even if the transcript now shows a different status — or it has been
removed wholesale by the FIFO trim that runs when the cache exceeds 500
entries. Cache keys are duplicate-free, as JS Map keys always are. -/
theorem c9_cache_entry_immutable (state : SessionState) (config : PluginConfig)
    (messages : List WithParts) (id : String) (e : ToolParameterEntry)
    (hnd : (state.toolParameters.map Prod.fst).Nodup)
    (hbefore : mapGet state.toolParameters id = some e) :
    mapGet (syncToolCache state config messages).toolParameters id = none
      ∨ mapGet (syncToolCache state config messages).toolParameters id = some e := by
  unfold syncToolCache
  rw [syncFold_eq_allParts]
  have h1 : mapGet ((allParts messages).foldl (syncPart config) state).toolParameters id
      = some e :=
    syncParts_preserve_mapGet config (allParts messages) state hbefore
  have h2 : ((((allParts messages).foldl (syncPart config) state)).toolParameters.map
      Prod.fst).Nodup :=
    syncParts_keys_nodup config (allParts messages) state hnd
  rw [trim_toolParameters_eq _ h2]
  exact mapGet_drop_or h2 h1 _

/-- C9 (witness): an entry cached with status completed stays exactly as
first cached even when the transcript later shows the same callID with an
error status. -/
theorem c9_cache_entry_immutable_witness :
    mapGet (syncToolCache
        { toolParameters := [("a", demoEntry)]
          toolIdList := []
          prune := { toolIds := [], messageIds := [] }
          compressSummaries := []
          stats := { pruneTokenCounter := 0, totalPruneTokens := 0 }
          nudgeCounter := 0, lastToolPrune := false, lastCompaction := 0 }
        { strategies := { pruneTool := { protectedTools := [] }
                          supersedeWrites := { enabled := true } }
          protectedFilePatterns := [] }
        [{ info := { id := "m1", role := "assistant", sessionID := "s"
                     timeCreated := 1, summary := false }
           parts := [.tool "a" "read"
             { status := "error", input := .obj [], output := .undef
               error := .str "boom" }] }]).toolParameters "a" = none
      ∨ mapGet (syncToolCache
        { toolParameters := [("a", demoEntry)]
          toolIdList := []
          prune := { toolIds := [], messageIds := [] }
          compressSummaries := []
          stats := { pruneTokenCounter := 0, totalPruneTokens := 0 }
          nudgeCounter := 0, lastToolPrune := false, lastCompaction := 0 }
        { strategies := { pruneTool := { protectedTools := [] }
                          supersedeWrites := { enabled := true } }
          protectedFilePatterns := [] }
        [{ info := { id := "m1", role := "assistant", sessionID := "s"
                     timeCreated := 1, summary := false }
           parts := [.tool "a" "read"
             { status := "error", input := .obj [], output := .undef
               error := .str "boom" }] }]).toolParameters "a" = some demoEntry :=
  c9_cache_entry_immutable _ _ _ "a" demoEntry (by decide) rfl

/-- A session state with 501 cached tool entries, oldest id b0. -/
def overflowStateB : SessionState :=
  { toolParameters := (List.range 501).map (fun i => ("b" ++ toString i, demoEntry))
    toolIdList := []
    prune := { toolIds := [], messageIds := [] }
    compressSummaries := []
    stats := { pruneTokenCounter := 0, totalPruneTokens := 0 }
    nudgeCounter := 0
    lastToolPrune := false
    lastCompaction := 0 }

set_option maxRecDepth 100000 in
/-- C9 (counterexample): the claim as stated is false. When the cache is
over the 500-entry bound, a sync (here over an empty transcript) does not
leave an existing entry unchanged: id b0 is cached before the sync and
its entry is gone afterwards, evicted by the FIFO trim. -/
theorem c9_counterexample :
    mapGet overflowStateB.toolParameters "b0" = some demoEntry
      ∧ mapGet (syncToolCache overflowStateB
          { strategies := { pruneTool := { protectedTools := [] }
                            supersedeWrites := { enabled := true } }
            protectedFilePatterns := [] } []).toolParameters "b0" = none :=
  ⟨rfl, by rfl⟩

/-! Glob matching and protected file patterns, from
src/lib/protected-file-patterns.ts. The source compiles the glob to a
JavaScript regular expression anchored with ^ and $; the embedding
compiles the same pattern syntax to a small regex atom list and runs an
anchored backtracking matcher with the semantics of the compiled
expression (`**/` becomes an optional any-directories group, `**` matches
anything, `*` and `?` do not cross `/`, every other character is a
literal, escaping being semantically transparent). -/

/-- The `normalizePath` of the source: `replaceAll("\\\\", "/")` replaces
every occurrence of two consecutive backslashes by a slash, left to
right. -/
def normChars : List Char → List Char
  | '\\' :: '\\' :: rest => '/' :: normChars rest
  | c :: rest => c :: normChars rest
  | [] => []

inductive RAtom where
  | lit (c : Char) : RAtom
  | nonSlash : RAtom
  | starNonSlash : RAtom
  | dotStar : RAtom
  | optDirs : RAtom

/-- The pattern-compilation loop of `matchesGlob`: `**/` to an optional
any-directories group, `**` to `.*`, `*` to `[^/]*`, `?` to `[^/]`,
anything else (slashes and escaped characters included) to a literal. -/
def compileGlob : List Char → List RAtom
  | [] => []
  | '*' :: '*' :: '/' :: rest => .optDirs :: compileGlob rest
  | '*' :: '*' :: rest => .dotStar :: compileGlob rest
  | '*' :: rest => .starNonSlash :: compileGlob rest
  | '?' :: rest => .nonSlash :: compileGlob rest
  | c :: rest => .lit c :: compileGlob rest

mutual

/-- Anchored matcher for the compiled atom list (the `^...$` regex
test). -/
def matchAtoms : List RAtom → List Char → Bool
  | [], [] => true
  | [], _ :: _ => false
  | .lit _ :: _, [] => false
  | .lit c :: as, x :: xs => x == c && matchAtoms as xs
  | .nonSlash :: _, [] => false
  | .nonSlash :: as, x :: xs => x != '/' && matchAtoms as xs
  | .starNonSlash :: as, [] => matchAtoms as []
  | .starNonSlash :: as, x :: xs =>
    matchAtoms as (x :: xs) || (x != '/' && matchAtoms (.starNonSlash :: as) xs)
  | .dotStar :: as, [] => matchAtoms as []
  | .dotStar :: as, x :: xs => matchAtoms as (x :: xs) || matchAtoms (.dotStar :: as) xs
  | .optDirs :: as, s => matchAtoms as s || matchAfterSlash as s
termination_by as s => (s.length, as.length, 0)

/-- Matcher for the `(?:.*/)?` group when it consumes input: try every
position where a slash ends the consumed directory prefix. -/
def matchAfterSlash : List RAtom → List Char → Bool
  | _, [] => false
  | as, x :: xs => (x == '/' && matchAtoms as xs) || matchAfterSlash as xs
termination_by as s => (s.length, as.length, 1)

end

/-- The `matchesGlob` of protected-file-patterns.ts: an empty (falsy)
pattern matches nothing; otherwise the normalized path is tested against
the compiled normalized pattern, anchored at both ends. -/
def matchesGlob (inputPath : String) (pattern : String) : Bool :=
  if pattern == "" then false
  else matchAtoms (compileGlob (normChars pattern.data)) (normChars inputPath.data)

/-- One attempt to read an apply_patch header
`*** (Add|Delete|Update) File: <path>` at the current position: on
success, the number of characters the match consumes and the captured
path (which the source trims). -/
def tryPatchHeader (cs : List Char) : Option (Nat × String) :=
  let tryOne : List Char → Option (Nat × String) := fun prefixChars =>
    if prefixChars.isPrefixOf cs then
      let after := cs.drop prefixChars.length
      let captured := after.takeWhile (fun c => !(c == '\n' || c == '\r'))
      if captured.isEmpty then none
      else some (prefixChars.length + captured.length, (String.mk captured).trim)
    else none
  match tryOne "*** Add File: ".data with
  | some r => some r
  | none =>
    match tryOne "*** Delete File: ".data with
    | some r => some r
    | none => tryOne "*** Update File: ".data

/-- The global-regex scan of `patchText` for apply_patch file headers:
left to right, non-overlapping, advancing past each match. -/
def scanPatchPaths : List Char → List String
  | [] => []
  | c :: rest =>
    match tryPatchHeader (c :: rest) with
    | some (n, path) => path :: scanPatchPaths ((c :: rest).drop (max n 1))
    | none => scanPatchPaths rest
termination_by cs => cs.length
decreasing_by
  · simp only [List.length_drop, List.length_cons]
    omega
  · simp

/-- Order-preserving deduplication, the `[...new Set(paths)]` of the
source. -/
def dedupStrings (l : List String) : List String :=
  l.foldl (fun acc s => if acc.contains s then acc else acc ++ [s]) []

/-- The `getFilePathsFromParameters` of protected-file-patterns.ts. -/
def getFilePathsFromParameters (tool : String) (parameters : JValue) : List String :=
  let isObjectLike :=
    match parameters with
    | .obj _ => true
    | .arr _ => true
    | _ => false
  if !isObjectLike then []
  else
    let patchPaths :=
      if tool == "apply_patch" then
        match jsGet parameters "patchText" with
        | .str s => scanPatchPaths s.data
        | _ => []
      else []
    let multieditPaths :=
      if tool == "multiedit" then
        (match jsGet parameters "filePath" with
         | .str s => [s]
         | _ => []) ++
        (match jsGet parameters "edits" with
         | .arr edits =>
           edits.foldl (fun acc e =>
             if jsTruthy e then
               match jsGet e "filePath" with
               | .str s => acc ++ [s]
               | _ => acc
             else acc) []
         | _ => [])
      else []
    let defaultPaths :=
      match jsGet parameters "filePath" with
      | .str s => [s]
      | _ => []
    (dedupStrings (patchPaths ++ multieditPaths ++ defaultPaths)).filter
      (fun p => p.length > 0)

/-- The `isProtected` of protected-file-patterns.ts: empty path or
pattern lists are never protected; otherwise some path must match some
pattern. -/
def isProtected (filePaths : List String) (patterns : List String) : Bool :=
  if filePaths.isEmpty then false
  else if patterns.isEmpty then false
  else filePaths.any (fun path => patterns.any (fun pattern => matchesGlob path pattern))

/-- C10: an empty glob pattern matches no path at all; `isProtected`
returns false whenever the file-path list or the pattern list is empty;
consequently, with no configured protectedFilePatterns no tool call is
ever file-protected, whatever paths its parameters yield. -/
theorem c10_empty_pattern_never_matches :
    (∀ p : String, matchesGlob p "" = false)
      ∧ (∀ patterns : List String, isProtected [] patterns = false)
      ∧ (∀ filePaths : List String, isProtected filePaths [] = false)
      ∧ (∀ (tool : String) (parameters : JValue),
          isProtected (getFilePathsFromParameters tool parameters) [] = false) := by
  refine ⟨fun p => by simp [matchesGlob], fun patterns => by simp [isProtected], ?_, ?_⟩
  · intro filePaths
    simp [isProtected, List.isEmpty_iff]
  · intro tool parameters
    simp [isProtected, List.isEmpty_iff]

/-! The content rewriter of src/lib/messages/prune.ts (lines 161-227). -/

def PRUNED_TOOL_INPUT_REPLACEMENT : String :=
  "[content removed to save context, this is not what was written to the file, but a placeholder]"

def PRUNED_TOOL_OUTPUT_REPLACEMENT : String :=
  "[Output removed to save context - information superseded or no longer needed]"

/-- The per-part body of `pruneToolOutputs`: a pruned tool that is not
write/edit and has completed gets its output replaced by the output
placeholder. -/
def pruneOutputsPart (state : SessionState) (part : Part) : Part :=
  match part with
  | .tool callID toolName ts =>
    if !(state.prune.toolIds.contains callID) then .tool callID toolName ts
    else if toolName == "write" || toolName == "edit" then .tool callID toolName ts
    else if ts.status == "completed" then
      .tool callID toolName { ts with output := .str PRUNED_TOOL_OUTPUT_REPLACEMENT }
    else .tool callID toolName ts
  | p => p

/-- The `pruneToolOutputs` of messages/prune.ts: compacted messages are
skipped entirely. -/
def pruneToolOutputs (state : SessionState) (messages : List WithParts) :
    List WithParts :=
  messages.map (fun msg =>
    if isMessageCompacted state msg then msg
    else { msg with parts := msg.parts.map (pruneOutputsPart state) })

/-- The per-part body of `pruneToolInputs`: a pruned write/edit tool that
is neither pending nor running gets its present input fields (content for
write, oldString and newString for edit) replaced by the input
placeholder. -/
def pruneInputsPart (state : SessionState) (part : Part) : Part :=
  match part with
  | .tool callID toolName ts =>
    if !(state.prune.toolIds.contains callID) then .tool callID toolName ts
    else if !(toolName == "write" || toolName == "edit") then .tool callID toolName ts
    else if ts.status == "pending" || ts.status == "running" then .tool callID toolName ts
    else
      let ts₁ :=
        if toolName == "write" && !(jsGet ts.input "content").isUndef then
          { ts with input :=
              jsSetField ts.input "content" (.str PRUNED_TOOL_INPUT_REPLACEMENT) }
        else ts
      let ts₂ :=
        if toolName == "edit" && !(jsGet ts₁.input "oldString").isUndef then
          { ts₁ with input :=
              jsSetField ts₁.input "oldString" (.str PRUNED_TOOL_INPUT_REPLACEMENT) }
        else ts₁
      let ts₃ :=
        if toolName == "edit" && !(jsGet ts₂.input "newString").isUndef then
          { ts₂ with input :=
              jsSetField ts₂.input "newString" (.str PRUNED_TOOL_INPUT_REPLACEMENT) }
        else ts₂
      .tool callID toolName ts₃
  | p => p

/-- The `pruneToolInputs` of messages/prune.ts (which, unlike the output
pruner, does not skip compacted messages). -/
def pruneToolInputs (state : SessionState) (messages : List WithParts) :
    List WithParts :=
  messages.map (fun msg => { msg with parts := msg.parts.map (pruneInputsPart state) })

/-- The `prune` rewriter entry point: outputs first, then inputs. -/
def prune (state : SessionState) (messages : List WithParts) : List WithParts :=
  pruneToolInputs state (pruneToolOutputs state messages)

/-- The part at message index mi and part index pi of a transcript. -/
def partAt (messages : List WithParts) (mi pi : Nat) : Option Part :=
  match messages[mi]? with
  | some msg => msg.parts[pi]?
  | none => none

theorem jsGet_obj_cons (kv : String × JValue) (rest : List (String × JValue))
    (k : String) :
    jsGet (.obj (kv :: rest)) k = if kv.1 == k then kv.2 else jsGet (.obj rest) k := by
  by_cases h : (kv.1 == k) = true
  · simp [jsGet, List.find?_cons_of_pos, h]
  · rw [if_neg (by simpa using h)]
    have h' : ¬((fun x : String × JValue => x.1 == k) kv = true) := by simpa using h
    simp only [jsGet]
    rw [@List.find?_cons_of_neg _ (fun x : String × JValue => x.1 == k) kv rest h']

theorem jsGet_jsSetField_same (v : JValue) (k : String) (x : JValue)
    (h : (jsGet v k).isUndef = false) : jsGet (jsSetField v k x) k = x := by
  cases v with
  | obj fields =>
    induction fields with
    | nil => simp [jsGet, JValue.isUndef] at h
    | cons kv rest ih =>
      rw [jsGet_obj_cons] at h
      by_cases hk : (kv.1 == k) = true
      · simp only [jsSetField, setAssoc, hk, if_true]
        rw [jsGet_obj_cons]
        simp
      · rw [if_neg (by simpa using hk)] at h
        have hrec := ih h
        simp only [jsSetField] at hrec ⊢
        simp only [setAssoc, hk]
        rw [if_neg (by simpa using hk), jsGet_obj_cons, if_neg (by simpa using hk)]
        exact hrec
  | null => simp [jsGet, JValue.isUndef] at h
  | undef => simp [jsGet, JValue.isUndef] at h
  | bool b => simp [jsGet, JValue.isUndef] at h
  | num n => simp [jsGet, JValue.isUndef] at h
  | str s => simp [jsGet, JValue.isUndef] at h
  | arr es => simp [jsGet, JValue.isUndef] at h

theorem jsGet_jsSetField_other (v : JValue) (k k' : String) (x : JValue)
    (hne : k ≠ k') : jsGet (jsSetField v k x) k' = jsGet v k' := by
  cases v with
  | obj fields =>
    induction fields with
    | nil =>
      simp only [jsSetField, setAssoc]
      rw [jsGet_obj_cons]
      have : (k == k') = false := by
        rcases hb : k == k' with _ | _
        · rfl
        · rw [beq_iff_eq] at hb; exact absurd hb hne
      rw [this]
      simp
    | cons kv rest ih =>
      by_cases hk : (kv.1 == k) = true
      · simp only [jsSetField, setAssoc, hk, if_true]
        rw [jsGet_obj_cons, jsGet_obj_cons]
        have hkk : (k == k') = false := by
          rcases hb : k == k' with _ | _
          · rfl
          · rw [beq_iff_eq] at hb; exact absurd hb hne
        have hkv : (kv.1 == k') = false := by
          rw [beq_iff_eq] at hk
          rw [hk]; exact hkk
        rw [hkk, hkv]
        simp
      · simp only [jsSetField] at ih ⊢
        simp only [setAssoc, hk]
        rw [if_neg (by simpa using hk), jsGet_obj_cons, jsGet_obj_cons]
        by_cases hkv : (kv.1 == k') = true
        · rw [hkv]; simp
        · rw [if_neg (by simpa using hkv), if_neg (by simpa using hkv)]
          exact ih
  | null => rfl
  | undef => rfl
  | bool b => rfl
  | num n => rfl
  | str s => rfl
  | arr es => rfl

/-- Composition shape of the rewriter on one addressed part of a
non-compacted message. -/
theorem prune_partAt (state : SessionState) (messages : List WithParts)
    (mi pi : Nat) (msg : WithParts) (part : Part)
    (hmsg : messages[mi]? = some msg)
    (hcomp : isMessageCompacted state msg = false)
    (hpart : msg.parts[pi]? = some part) :
    partAt (prune state messages) mi pi
      = some (pruneInputsPart state (pruneOutputsPart state part)) := by
  unfold prune pruneToolInputs pruneToolOutputs partAt
  rw [List.getElem?_map, List.getElem?_map, hmsg]
  simp only [Option.map_some', hcomp, Bool.false_eq_true, if_false]
  rw [List.map_map, List.getElem?_map, hpart]
  rfl

/-- C2 (amended): on every non-compacted message, for every tool part
whose callID is pruned — if the tool is neither write nor edit and its
status is completed, the output becomes exactly the output placeholder;
if the tool is write (and not pending/running) its input content, when
present, becomes the input placeholder; if the tool is edit (and not
pending/running) its oldString and newString, when present, become the
input placeholder; pending or running tool parts are left entirely
unchanged. Inputs whose relevant field is absent are left as they are:
the source guards each replacement on the field being defined. -/
theorem c2_rewriter_redaction (state : SessionState) (messages : List WithParts)
    (mi pi : Nat) (msg : WithParts) (cid tname : String) (ts : ToolCallState)
    (hmsg : messages[mi]? = some msg)
    (hcomp : isMessageCompacted state msg = false)
    (hpart : msg.parts[pi]? = some (.tool cid tname ts))
    (hpruned : state.prune.toolIds.contains cid = true) :
    ∃ ts', partAt (prune state messages) mi pi = some (.tool cid tname ts')
      ∧ (tname ≠ "write" → tname ≠ "edit" → ts.status = "completed" →
          ts'.output = .str PRUNED_TOOL_OUTPUT_REPLACEMENT)
      ∧ (tname = "write" → ts.status ≠ "pending" → ts.status ≠ "running" →
          (jsGet ts.input "content").isUndef = false →
          jsGet ts'.input "content" = .str PRUNED_TOOL_INPUT_REPLACEMENT)
      ∧ (tname = "edit" → ts.status ≠ "pending" → ts.status ≠ "running" →
          ((jsGet ts.input "oldString").isUndef = false →
            jsGet ts'.input "oldString" = .str PRUNED_TOOL_INPUT_REPLACEMENT)
          ∧ ((jsGet ts.input "newString").isUndef = false →
            jsGet ts'.input "newString" = .str PRUNED_TOOL_INPUT_REPLACEMENT))
      ∧ ((ts.status = "pending" ∨ ts.status = "running") → ts' = ts) := by
  have hpp := prune_partAt state messages mi pi msg _ hmsg hcomp hpart
  have hmem : cid ∈ state.prune.toolIds := List.elem_iff.mp hpruned
  by_cases hw : tname = "write"
  · subst hw
    have hout : pruneOutputsPart state (.tool cid "write" ts) = .tool cid "write" ts := by
      simp [pruneOutputsPart, hpruned, hmem]
    by_cases hst : (ts.status == "pending" || ts.status == "running") = true
    · have hin : pruneInputsPart state (.tool cid "write" ts) = .tool cid "write" ts := by
        simp [pruneInputsPart, hpruned, hmem, hst]
      refine ⟨ts, by rw [hpp, hout, hin], ?_, ?_, ?_, ?_⟩
      · intro h; exact absurd rfl h
      · intro _ hp hr _
        rcases Bool.or_eq_true_iff.mp hst with h | h
        · exact absurd (by simpa using h) hp
        · exact absurd (by simpa using h) hr
      · intro h; exact absurd h (by decide)
      · intro _; rfl
    · by_cases hc : (jsGet ts.input "content").isUndef = false
      · have hin : pruneInputsPart state (.tool cid "write" ts)
            = .tool cid "write"
                { ts with input :=
                    jsSetField ts.input "content" (.str PRUNED_TOOL_INPUT_REPLACEMENT) } := by
          simp [pruneInputsPart, hpruned, hmem, hst, hc]
        refine ⟨_, by rw [hpp, hout, hin], ?_, ?_, ?_, ?_⟩
        · intro h; exact absurd rfl h
        · intro _ _ _ _
          exact jsGet_jsSetField_same ts.input "content" _ hc
        · intro h; exact absurd h (by decide)
        · intro h
          rcases h with h | h <;>
            exact absurd (Bool.or_eq_true_iff.mpr (by simp [h])) hst
      · have hc' : (jsGet ts.input "content").isUndef = true := by
          rcases hb : (jsGet ts.input "content").isUndef with _ | _
          · exact absurd hb hc
          · rfl
        have hin : pruneInputsPart state (.tool cid "write" ts) = .tool cid "write" ts := by
          simp [pruneInputsPart, hpruned, hmem, hst, hc']
        refine ⟨ts, by rw [hpp, hout, hin], ?_, ?_, ?_, ?_⟩
        · intro h; exact absurd rfl h
        · intro _ _ _ hpres; exact absurd hpres hc
        · intro h; exact absurd h (by decide)
        · intro _; rfl
  · by_cases he : tname = "edit"
    · subst he
      have hout : pruneOutputsPart state (.tool cid "edit" ts) = .tool cid "edit" ts := by
        simp [pruneOutputsPart, hpruned, hmem]
      by_cases hst : (ts.status == "pending" || ts.status == "running") = true
      · have hin : pruneInputsPart state (.tool cid "edit" ts) = .tool cid "edit" ts := by
          simp [pruneInputsPart, hpruned, hmem, hst]
        refine ⟨ts, by rw [hpp, hout, hin], ?_, ?_, ?_, ?_⟩
        · intro _ h; exact absurd rfl h
        · intro h; exact absurd h (by decide)
        · intro _ hp hr
          rcases Bool.or_eq_true_iff.mp hst with h | h
          · exact absurd (by simpa using h) hp
          · exact absurd (by simpa using h) hr
        · intro _; rfl
      · -- edit, not pending/running: chain the two conditional replacements
        have hinshape : ∃ input',
            pruneInputsPart state (.tool cid "edit" ts)
              = .tool cid "edit" { ts with input := input' }
            ∧ ((jsGet ts.input "oldString").isUndef = false →
                jsGet input' "oldString" = .str PRUNED_TOOL_INPUT_REPLACEMENT)
            ∧ ((jsGet ts.input "newString").isUndef = false →
                jsGet input' "newString" = .str PRUNED_TOOL_INPUT_REPLACEMENT) := by
          by_cases hold : (jsGet ts.input "oldString").isUndef = false
          · by_cases hnew : (jsGet (jsSetField ts.input "oldString"
                (.str PRUNED_TOOL_INPUT_REPLACEMENT)) "newString").isUndef = false
            · refine ⟨jsSetField (jsSetField ts.input "oldString"
                (.str PRUNED_TOOL_INPUT_REPLACEMENT)) "newString"
                (.str PRUNED_TOOL_INPUT_REPLACEMENT), ?_, ?_, ?_⟩
              · simp [pruneInputsPart, hpruned, hmem, hst, hold, hnew]
              · intro _
                rw [jsGet_jsSetField_other _ "newString" "oldString" _ (by decide)]
                exact jsGet_jsSetField_same ts.input "oldString" _ hold
              · intro _
                exact jsGet_jsSetField_same _ "newString" _ hnew
            · have hnew' : (jsGet (jsSetField ts.input "oldString"
                  (.str PRUNED_TOOL_INPUT_REPLACEMENT)) "newString").isUndef = true := by
                rcases hb : (jsGet (jsSetField ts.input "oldString"
                    (.str PRUNED_TOOL_INPUT_REPLACEMENT)) "newString").isUndef with _ | _
                · exact absurd hb hnew
                · rfl
              refine ⟨jsSetField ts.input "oldString"
                (.str PRUNED_TOOL_INPUT_REPLACEMENT), ?_, ?_, ?_⟩
              · simp [pruneInputsPart, hpruned, hmem, hst, hold, hnew']
              · intro _
                exact jsGet_jsSetField_same ts.input "oldString" _ hold
              · intro hpres
                exfalso
                rw [jsGet_jsSetField_other _ "oldString" "newString" _ (by decide)]
                  at hnew
                exact hnew hpres
          · have hold' : (jsGet ts.input "oldString").isUndef = true := by
              rcases hb : (jsGet ts.input "oldString").isUndef with _ | _
              · exact absurd hb hold
              · rfl
            by_cases hnew : (jsGet ts.input "newString").isUndef = false
            · refine ⟨jsSetField ts.input "newString"
                (.str PRUNED_TOOL_INPUT_REPLACEMENT), ?_, ?_, ?_⟩
              · simp [pruneInputsPart, hpruned, hmem, hst, hold', hnew]
              · intro hpres; exact absurd hpres hold
              · intro _
                exact jsGet_jsSetField_same ts.input "newString" _ hnew
            · have hnew' : (jsGet ts.input "newString").isUndef = true := by
                rcases hb : (jsGet ts.input "newString").isUndef with _ | _
                · exact absurd hb hnew
                · rfl
              refine ⟨ts.input, ?_, ?_, ?_⟩
              · simp [pruneInputsPart, hpruned, hmem, hst, hold', hnew']
              · intro hpres; exact absurd hpres hold
              · intro hpres; exact absurd hpres hnew
        obtain ⟨input', hin, holdc, hnewc⟩ := hinshape
        refine ⟨_, by rw [hpp, hout, hin], ?_, ?_, ?_, ?_⟩
        · intro _ h; exact absurd rfl h
        · intro h; exact absurd h (by decide)
        · intro _ _ _; exact ⟨holdc, hnewc⟩
        · intro h
          rcases h with h | h <;>
            exact absurd (Bool.or_eq_true_iff.mpr (by simp [h])) hst
    · -- neither write nor edit
      have hwb : (tname == "write") = false := by
        rcases hb : tname == "write" with _ | _
        · rfl
        · rw [beq_iff_eq] at hb; exact absurd hb hw
      have heb : (tname == "edit") = false := by
        rcases hb : tname == "edit" with _ | _
        · rfl
        · rw [beq_iff_eq] at hb; exact absurd hb he
      by_cases hstc : (ts.status == "completed") = true
      · have hout : pruneOutputsPart state (.tool cid tname ts)
            = .tool cid tname { ts with output := .str PRUNED_TOOL_OUTPUT_REPLACEMENT } := by
          simp [pruneOutputsPart, hpruned, hmem, hwb, heb, hstc]
        have hin : pruneInputsPart state
              (.tool cid tname { ts with output := .str PRUNED_TOOL_OUTPUT_REPLACEMENT })
            = .tool cid tname { ts with output := .str PRUNED_TOOL_OUTPUT_REPLACEMENT } := by
          simp [pruneInputsPart, hpruned, hmem, hwb, heb]
        refine ⟨_, by rw [hpp, hout, hin], ?_, ?_, ?_, ?_⟩
        · intro _ _ _; rfl
        · intro h; exact absurd h hw
        · intro h; exact absurd h he
        · intro h
          rw [beq_iff_eq] at hstc
          rcases h with h | h <;> rw [h] at hstc <;> exact absurd hstc (by decide)
      · have hout : pruneOutputsPart state (.tool cid tname ts) = .tool cid tname ts := by
          simp [pruneOutputsPart, hpruned, hmem, hwb, heb, hstc]
        have hin : pruneInputsPart state (.tool cid tname ts) = .tool cid tname ts := by
          simp [pruneInputsPart, hpruned, hmem, hwb, heb]
        refine ⟨ts, by rw [hpp, hout, hin], ?_, ?_, ?_, ?_⟩
        · intro _ _ hc
          exfalso
          rw [hc] at hstc
          simp at hstc
        · intro h; exact absurd h hw
        · intro h; exact absurd h he
        · intro _; rfl

/-- A session that prunes tool call g1. -/
def rewriterDemoState : SessionState :=
  { toolParameters := []
    toolIdList := []
    prune := { toolIds := ["g1"], messageIds := [] }
    compressSummaries := []
    stats := { pruneTokenCounter := 0, totalPruneTokens := 0 }
    nudgeCounter := 0
    lastToolPrune := false
    lastCompaction := 0 }

def rewriterDemoTs : ToolCallState :=
  { status := "completed", input := .obj [("pattern", .str "x")]
    output := .str "big grep output", error := .undef }

def rewriterDemoMsg : WithParts :=
  { info := { id := "m1", role := "assistant", sessionID := "s"
              timeCreated := 1, summary := false }
    parts := [.tool "g1" "grep" rewriterDemoTs] }

/-- C2 (witness): a pruned completed grep call in a non-compacted message
gets its output redacted. -/
theorem c2_rewriter_redaction_witness :
    ∃ ts', partAt (prune rewriterDemoState [rewriterDemoMsg]) 0 0
        = some (.tool "g1" "grep" ts')
      ∧ ("grep" ≠ "write" → "grep" ≠ "edit" → rewriterDemoTs.status = "completed" →
          ts'.output = .str PRUNED_TOOL_OUTPUT_REPLACEMENT)
      ∧ ("grep" = "write" → rewriterDemoTs.status ≠ "pending" →
          rewriterDemoTs.status ≠ "running" →
          (jsGet rewriterDemoTs.input "content").isUndef = false →
          jsGet ts'.input "content" = .str PRUNED_TOOL_INPUT_REPLACEMENT)
      ∧ ("grep" = "edit" → rewriterDemoTs.status ≠ "pending" →
          rewriterDemoTs.status ≠ "running" →
          ((jsGet rewriterDemoTs.input "oldString").isUndef = false →
            jsGet ts'.input "oldString" = .str PRUNED_TOOL_INPUT_REPLACEMENT)
          ∧ ((jsGet rewriterDemoTs.input "newString").isUndef = false →
            jsGet ts'.input "newString" = .str PRUNED_TOOL_INPUT_REPLACEMENT))
      ∧ ((rewriterDemoTs.status = "pending" ∨ rewriterDemoTs.status = "running") →
          ts' = rewriterDemoTs) :=
  c2_rewriter_redaction rewriterDemoState [rewriterDemoMsg] 0 0 rewriterDemoMsg
    "g1" "grep" rewriterDemoTs rfl rfl rfl rfl

/-- A pruned write call whose input object carries no content field. -/
def writeNoContentTs : ToolCallState :=
  { status := "completed", input := .obj [], output := .str "done", error := .undef }

def writeNoContentState : SessionState :=
  { toolParameters := []
    toolIdList := []
    prune := { toolIds := ["w1"], messageIds := [] }
    compressSummaries := []
    stats := { pruneTokenCounter := 0, totalPruneTokens := 0 }
    nudgeCounter := 0
    lastToolPrune := false
    lastCompaction := 0 }

def writeNoContentMsg : WithParts :=
  { info := { id := "m1", role := "assistant", sessionID := "s"
              timeCreated := 1, summary := false }
    parts := [.tool "w1" "write" writeNoContentTs] }

/-- C2 (counterexample): the claim as stated is false. For a pruned,
completed write tool part whose input has no content field (the message
is not compacted), the rewriter leaves the part entirely unchanged — the
source guards the replacement with `input?.content !== undefined` — so
`state.input.content` does not equal the input placeholder after the
prune operation. -/
theorem c2_counterexample :
    writeNoContentState.prune.toolIds.contains "w1" = true
      ∧ isMessageCompacted writeNoContentState writeNoContentMsg = false
      ∧ partAt (prune writeNoContentState [writeNoContentMsg]) 0 0
        = some (.tool "w1" "write" writeNoContentTs)
      ∧ jsGet writeNoContentTs.input "content" = .undef
      ∧ JValue.undef ≠ .str PRUNED_TOOL_INPUT_REPLACEMENT :=
  ⟨rfl, rfl, rfl, rfl, fun h => JValue.noConfusion h⟩

/-! The compress tool, from src/lib/tools/utils.ts and the current
revision of src/lib/tools/compress.ts (object-schema execute). -/

/-- Substring containment, the semantics of `String.prototype.includes`
(an empty needle is contained in everything). -/
def infixB : List Char → List Char → Bool
  | pat, [] => pat.isEmpty
  | pat, c :: rest => pat.isPrefixOf (c :: rest) || infixB pat rest

def containsSub (s pat : String) : Bool := infixB pat.data s.data

structure FindResult where
  messageId : String
  messageIndex : Nat
deriving DecidableEq

/-- Per-part searchable content, as `findStringInMessages` builds it:
text parts contribute their text; completed tool parts contribute their
string output followed, when the input is truthy, by a space and the
input (as is when a string, JSON-serialized otherwise); everything else
contributes the empty string. -/
def partSearchContent (part : Part) : String :=
  match part with
  | .text t => t
  | .tool _ _ ts =>
    if ts.status == "completed" then
      (match ts.output with
       | .str s => s
       | _ => "") ++
      (if jsTruthy ts.input then
        " " ++ (match ts.input with
                | .str s => s
                | v => jsonStringify v)
       else "")
    else ""
  | _ => ""

/-- Enumeration of a list with explicit start index, mirroring indexed
for loops. -/
def enumFrom : Nat → List α → List (Nat × α)
  | _, [] => []
  | i, a :: rest => (i, a) :: enumFrom (i + 1) rest

/-- The summary-search phase of `findStringInMessages`: every existing
compress summary containing the needle whose anchor is found in the
transcript yields a match at the anchor. -/
def collectSummaryMatches (messages : List WithParts) (searchString : String)
    (compressSummaries : List CompressSummary) : List FindResult :=
  compressSummaries.foldl (fun acc summary =>
    if containsSub summary.summary searchString then
      match messages.findIdx? (fun m => m.info.id == summary.anchorMessageId) with
      | some anchorIndex =>
        acc ++ [{ messageId := summary.anchorMessageId, messageIndex := anchorIndex }]
      | none => acc
    else acc) []

/-- The raw-message-search phase of `findStringInMessages`: every part
whose searchable content contains the needle yields a match at its
message. -/
def collectPartMatches (messages : List WithParts) (searchString : String) :
    List FindResult :=
  (enumFrom 0 messages).foldl (fun acc im =>
    im.2.parts.foldl (fun acc2 part =>
      if containsSub (partSearchContent part) searchString then
        acc2 ++ [{ messageId := im.2.info.id, messageIndex := im.1 }]
      else acc2) acc) []

def collectMatches (messages : List WithParts) (searchString : String)
    (compressSummaries : List CompressSummary) : List FindResult :=
  collectSummaryMatches messages searchString compressSummaries
    ++ collectPartMatches messages searchString

/-- The `findStringInMessages` of tools/utils.ts: exactly one match is
required; zero or several matches throw (the length-guard structure of
the source is rendered as a three-way match on the match list). -/
def findStringInMessages (messages : List WithParts) (searchString : String)
    (compressSummaries : List CompressSummary) (stringType : String) :
    Except String FindResult :=
  match collectMatches messages searchString compressSummaries with
  | [] => .error (stringType ++
      " not found in conversation. Make sure the string exists and is spelled exactly as it appears.")
  | [m] => .ok m
  | _ :: _ :: _ => .error ("Found multiple matches for " ++ stringType ++
      ". Provide more surrounding context to uniquely identify the intended match.")

/-- The messages with indices in [startIndex, endIndex]. -/
def messagesInRange (messages : List WithParts) (startIndex endIndex : Nat) :
    List WithParts :=
  (messages.drop startIndex).take (endIndex + 1 - startIndex)

/-- The `collectToolIdsInRange` of tools/utils.ts: each truthy callID of
a tool part in the range, deduplicated, in order. -/
def collectToolIdsInRange (messages : List WithParts) (startIndex endIndex : Nat) :
    List String :=
  (messagesInRange messages startIndex endIndex).foldl (fun acc msg =>
    msg.parts.foldl (fun acc2 part =>
      match part with
      | .tool cid _ _ =>
        if cid == "" then acc2
        else if acc2.contains cid then acc2
        else acc2 ++ [cid]
      | _ => acc2) acc) []

/-- The `collectMessageIdsInRange` of tools/utils.ts. -/
def collectMessageIdsInRange (messages : List WithParts) (startIndex endIndex : Nat) :
    List String :=
  (messagesInRange messages startIndex endIndex).foldl (fun acc msg =>
    if acc.contains msg.info.id then acc else acc ++ [msg.info.id]) []

/-- The `collectContentInRange` of tools/utils.ts, used for token
estimation only. -/
def collectContentInRange (messages : List WithParts) (startIndex endIndex : Nat) :
    List String :=
  (messagesInRange messages startIndex endIndex).foldl (fun acc msg =>
    msg.parts.foldl (fun acc2 part =>
      match part with
      | .text t => acc2 ++ [t]
      | .tool _ _ ts =>
        let acc3 :=
          if jsTruthy ts.input then
            acc2 ++ [match ts.input with
                     | .str s => s
                     | v => jsonStringify v]
          else acc2
        if ts.status == "completed" && jsTruthy ts.output then
          acc3 ++ [match ts.output with
                   | .str s => s
                   | v => jsonStringify v]
        else if ts.status == "error" && jsTruthy ts.error then
          acc3 ++ [match ts.error with
                   | .str s => s
                   | v => jsonStringify v]
        else acc3
      | _ => acc2) acc) []

/-- Modelled from the spec: the synchronous token estimator used by the
compress tool (src/lib/strategies/utils.ts is not under src/); spec
section 4.5 says tokens saved are counted by an estimator over the
compressed content, and the in-repo fallback estimator rounds
length / 4. Only the stats counters depend on it. -/
def estimateTokensBatch (texts : List String) : Nat :=
  (texts.map (fun t => (t.length + 2) / 4)).sum

/-- The `execute` of the compress tool (current revision of
src/lib/tools/compress.ts): argument validation, the two single-match
searches and the range check all throw before any state mutation; on
success the contained tool and message ids join the prune sets, compress
summaries anchored inside the range are dropped, the new summary is
appended, and the stats and nudge counters are updated. The returned pair
carries the thrown-or-returned message and the state after the call. -/
def compressExecute (state : SessionState) (messages : List WithParts)
    (topic startString endString summary : String) :
    Except String String × SessionState :=
  if topic == "" then
    (.error "topic is required and must be a non-empty string", state)
  else if startString == "" then
    (.error "content.startString is required and must be a non-empty string", state)
  else if endString == "" then
    (.error "content.endString is required and must be a non-empty string", state)
  else if summary == "" then
    (.error "content.summary is required and must be a non-empty string", state)
  else
    match findStringInMessages messages startString state.compressSummaries "startString" with
    | .error e => (.error e, state)
    | .ok startResult =>
      match findStringInMessages messages endString state.compressSummaries "endString" with
      | .error e => (.error e, state)
      | .ok endResult =>
        if endResult.messageIndex < startResult.messageIndex then
          (.error "startString appears after endString in the conversation. Start must come before end.",
            state)
        else
          let containedToolIds :=
            collectToolIdsInRange messages startResult.messageIndex endResult.messageIndex
          let containedMessageIds :=
            collectMessageIdsInRange messages startResult.messageIndex endResult.messageIndex
          let st₁ := { state with prune :=
            { toolIds := containedToolIds.foldl setAdd state.prune.toolIds
              messageIds := containedMessageIds.foldl setAdd state.prune.messageIds } }
          let st₂ := { st₁ with compressSummaries :=
            (st₁.compressSummaries.filter
              (fun s : CompressSummary =>
                !(containedMessageIds.contains s.anchorMessageId)))
            ++ [({ anchorMessageId := startResult.messageId, summary := summary } :
                CompressSummary)] }
          let estimatedCompressedTokens := estimateTokensBatch
            (collectContentInRange messages startResult.messageIndex endResult.messageIndex)
          let st₃ := { st₂ with stats :=
            { pruneTokenCounter := st₂.stats.pruneTokenCounter + estimatedCompressedTokens
              totalPruneTokens := st₂.stats.totalPruneTokens } }
          let st₄ := { st₃ with
            stats :=
              { pruneTokenCounter := 0
                totalPruneTokens := st₃.stats.totalPruneTokens + st₃.stats.pruneTokenCounter }
            nudgeCounter := 0 }
          let messagesCompressed := endResult.messageIndex - startResult.messageIndex + 1
          (.ok ("Compressed " ++ toString messagesCompressed ++ " messages ("
            ++ toString containedToolIds.length
            ++ " tool calls) into summary. The content will be replaced with your summary."),
            st₄)

theorem findString_of_len_zero (messages : List WithParts) (s : String)
    (sums : List CompressSummary) (t : String)
    (h : (collectMatches messages s sums).length = 0) :
    findStringInMessages messages s sums t = .error (t ++
      " not found in conversation. Make sure the string exists and is spelled exactly as it appears.") := by
  unfold findStringInMessages
  rcases hm : collectMatches messages s sums with _ | ⟨m, rest⟩
  · rfl
  · rw [hm] at h; simp at h

theorem findString_of_len_gt_one (messages : List WithParts) (s : String)
    (sums : List CompressSummary) (t : String)
    (h : 1 < (collectMatches messages s sums).length) :
    findStringInMessages messages s sums t = .error ("Found multiple matches for " ++ t ++
      ". Provide more surrounding context to uniquely identify the intended match.") := by
  unfold findStringInMessages
  rcases hm : collectMatches messages s sums with _ | ⟨m, _ | ⟨m2, rest⟩⟩
  · rw [hm] at h; simp at h
  · rw [hm] at h; simp at h
  · rfl

theorem compressExecute_err_of_findStart (state : SessionState)
    (messages : List WithParts) (topic startString endString summary e : String)
    (ht : topic ≠ "") (hs : startString ≠ "") (he : endString ≠ "") (hsu : summary ≠ "")
    (hsr : findStringInMessages messages startString state.compressSummaries "startString"
      = .error e) :
    compressExecute state messages topic startString endString summary
      = (.error e, state) := by
  unfold compressExecute
  simp only [beq_eq_false_iff_ne.mpr ht, beq_eq_false_iff_ne.mpr hs,
    beq_eq_false_iff_ne.mpr he, beq_eq_false_iff_ne.mpr hsu,
    Bool.false_eq_true, if_false]
  rw [hsr]

theorem compressExecute_err_of_findEnd (state : SessionState)
    (messages : List WithParts) (topic startString endString summary e : String)
    (sr : FindResult)
    (ht : topic ≠ "") (hs : startString ≠ "") (he : endString ≠ "") (hsu : summary ≠ "")
    (hsr : findStringInMessages messages startString state.compressSummaries "startString"
      = .ok sr)
    (her : findStringInMessages messages endString state.compressSummaries "endString"
      = .error e) :
    compressExecute state messages topic startString endString summary
      = (.error e, state) := by
  unfold compressExecute
  simp only [beq_eq_false_iff_ne.mpr ht, beq_eq_false_iff_ne.mpr hs,
    beq_eq_false_iff_ne.mpr he, beq_eq_false_iff_ne.mpr hsu,
    Bool.false_eq_true, if_false]
  rw [hsr, her]

theorem compressExecute_err_of_range (state : SessionState)
    (messages : List WithParts) (topic startString endString summary : String)
    (sr er : FindResult)
    (ht : topic ≠ "") (hs : startString ≠ "") (he : endString ≠ "") (hsu : summary ≠ "")
    (hsr : findStringInMessages messages startString state.compressSummaries "startString"
      = .ok sr)
    (her : findStringInMessages messages endString state.compressSummaries "endString"
      = .ok er)
    (hlt : er.messageIndex < sr.messageIndex) :
    compressExecute state messages topic startString endString summary
      = (.error "startString appears after endString in the conversation. Start must come before end.",
          state) := by
  unfold compressExecute
  simp only [beq_eq_false_iff_ne.mpr ht, beq_eq_false_iff_ne.mpr hs,
    beq_eq_false_iff_ne.mpr he, beq_eq_false_iff_ne.mpr hsu,
    Bool.false_eq_true, if_false]
  rw [hsr, her]
  dsimp only
  rw [if_pos hlt]

/-- On success, the compress summaries after the call are the previous
ones without those anchored inside the compressed range, plus the new
summary anchored at the start match. -/
theorem compressExecute_ok_summaries (state : SessionState)
    (messages : List WithParts) (topic startString endString summary : String)
    (sr er : FindResult)
    (ht : topic ≠ "") (hs : startString ≠ "") (he : endString ≠ "") (hsu : summary ≠ "")
    (hsr : findStringInMessages messages startString state.compressSummaries "startString"
      = .ok sr)
    (her : findStringInMessages messages endString state.compressSummaries "endString"
      = .ok er)
    (hle : ¬ er.messageIndex < sr.messageIndex) :
    (compressExecute state messages topic startString endString summary).2.compressSummaries
      = (state.compressSummaries.filter
          (fun s : CompressSummary =>
            !((collectMessageIdsInRange messages sr.messageIndex er.messageIndex).contains
              s.anchorMessageId)))
        ++ [{ anchorMessageId := sr.messageId, summary := summary }] := by
  unfold compressExecute
  simp only [beq_eq_false_iff_ne.mpr ht, beq_eq_false_iff_ne.mpr hs,
    beq_eq_false_iff_ne.mpr he, beq_eq_false_iff_ne.mpr hsu,
    Bool.false_eq_true, if_false]
  rw [hsr, her]
  dsimp only
  rw [if_neg hle]

/-- C3: the compress tool throws — with no change to the prune sets and
compress summaries — when a boundary string has zero matches, when it has
more than one match across existing compress summaries and all message
parts, or when the start match lies at a later message index than the end
match. (The non-emptiness of the four string arguments is the argument
validation that precedes the searches.) -/
theorem c3_compress_validation_errors (state : SessionState)
    (messages : List WithParts) (topic startString endString summary : String)
    (ht : topic ≠ "") (hs : startString ≠ "") (he : endString ≠ "") (hsu : summary ≠ "")
    (hcond :
      (collectMatches messages startString state.compressSummaries).length = 0
      ∨ 1 < (collectMatches messages startString state.compressSummaries).length
      ∨ (collectMatches messages endString state.compressSummaries).length = 0
      ∨ 1 < (collectMatches messages endString state.compressSummaries).length
      ∨ (∃ sr er,
          findStringInMessages messages startString state.compressSummaries "startString"
            = .ok sr
          ∧ findStringInMessages messages endString state.compressSummaries "endString"
            = .ok er
          ∧ er.messageIndex < sr.messageIndex)) :
    (∃ e, (compressExecute state messages topic startString endString summary).1 = .error e)
      ∧ (compressExecute state messages topic startString endString summary).2.prune
        = state.prune
      ∧ (compressExecute state messages topic startString endString summary).2.compressSummaries
        = state.compressSummaries := by
  have hdone : ∃ e, compressExecute state messages topic startString endString summary
      = (.error e, state) := by
    rcases hcond with h | h | h | h | ⟨sr, er, hsr, her, hlt⟩
    · exact ⟨_, compressExecute_err_of_findStart state messages _ _ _ _ _ ht hs he hsu
        (findString_of_len_zero messages startString state.compressSummaries "startString" h)⟩
    · exact ⟨_, compressExecute_err_of_findStart state messages _ _ _ _ _ ht hs he hsu
        (findString_of_len_gt_one messages startString state.compressSummaries "startString" h)⟩
    · rcases hfs : findStringInMessages messages startString state.compressSummaries
        "startString" with e | sr
      · exact ⟨e, compressExecute_err_of_findStart state messages _ _ _ _ _ ht hs he hsu hfs⟩
      · exact ⟨_, compressExecute_err_of_findEnd state messages _ _ _ _ _ sr ht hs he hsu hfs
          (findString_of_len_zero messages endString state.compressSummaries "endString" h)⟩
    · rcases hfs : findStringInMessages messages startString state.compressSummaries
        "startString" with e | sr
      · exact ⟨e, compressExecute_err_of_findStart state messages _ _ _ _ _ ht hs he hsu hfs⟩
      · exact ⟨_, compressExecute_err_of_findEnd state messages _ _ _ _ _ sr ht hs he hsu hfs
          (findString_of_len_gt_one messages endString state.compressSummaries "endString" h)⟩
    · exact ⟨_, compressExecute_err_of_range state messages _ _ _ _ sr er ht hs he hsu
        hsr her hlt⟩
  obtain ⟨e, heq⟩ := hdone
  rw [heq]
  exact ⟨⟨e, rfl⟩, rfl, rfl⟩

/-- C3 (witness): searching an empty transcript finds nothing, the call
throws and the state is untouched. -/
theorem c3_compress_validation_errors_witness :
    (∃ e, (compressExecute compactionDemoState [] "T" "AAA" "BBB" "S").1 = .error e)
      ∧ (compressExecute compactionDemoState [] "T" "AAA" "BBB" "S").2.prune
        = compactionDemoState.prune
      ∧ (compressExecute compactionDemoState [] "T" "AAA" "BBB" "S").2.compressSummaries
        = compactionDemoState.compressSummaries :=
  c3_compress_validation_errors compactionDemoState [] "T" "AAA" "BBB" "S"
    (by decide) (by decide) (by decide) (by decide) (Or.inl (by rfl))

/-- C4 (amended): after a successful compress whose collected message-id
range contains the anchor of an existing summary S1, S1 is gone from
`compressSummaries` — unless S1 coincides exactly with the summary being
inserted (same anchor as the start match and same summary text), in which
case the equal element reappears through the insertion — and the new
summary anchored at the start match's message id is present. -/
theorem c4_compress_subsumption (state : SessionState) (messages : List WithParts)
    (topic startString endString summary : String) (r : String)
    (s1 : CompressSummary) (sr er : FindResult)
    (hok : (compressExecute state messages topic startString endString summary).1 = .ok r)
    (hs1 : s1 ∈ state.compressSummaries)
    (hsr : findStringInMessages messages startString state.compressSummaries "startString"
      = .ok sr)
    (her : findStringInMessages messages endString state.compressSummaries "endString"
      = .ok er)
    (hanchor : s1.anchorMessageId
      ∈ collectMessageIdsInRange messages sr.messageIndex er.messageIndex)
    (hne : s1 ≠ { anchorMessageId := sr.messageId, summary := summary }) :
    s1 ∉ (compressExecute state messages topic startString endString
        summary).2.compressSummaries
      ∧ ({ anchorMessageId := sr.messageId, summary := summary } : CompressSummary)
        ∈ (compressExecute state messages topic startString endString
          summary).2.compressSummaries := by
  have ht : topic ≠ "" := by
    intro h; subst h; unfold compressExecute at hok; simp at hok
  have hs : startString ≠ "" := by
    intro h; subst h
    unfold compressExecute at hok
    simp only [beq_eq_false_iff_ne.mpr ht, Bool.false_eq_true, if_false] at hok
    simp at hok
  have he : endString ≠ "" := by
    intro h; subst h
    unfold compressExecute at hok
    simp only [beq_eq_false_iff_ne.mpr ht, beq_eq_false_iff_ne.mpr hs,
      Bool.false_eq_true, if_false] at hok
    simp at hok
  have hsu : summary ≠ "" := by
    intro h; subst h
    unfold compressExecute at hok
    simp only [beq_eq_false_iff_ne.mpr ht, beq_eq_false_iff_ne.mpr hs,
      beq_eq_false_iff_ne.mpr he, Bool.false_eq_true, if_false] at hok
    simp at hok
  have hle : ¬ er.messageIndex < sr.messageIndex := by
    intro hlt
    rw [compressExecute_err_of_range state messages topic startString endString summary
      sr er ht hs he hsu hsr her hlt] at hok
    simp at hok
  rw [compressExecute_ok_summaries state messages topic startString endString summary
    sr er ht hs he hsu hsr her hle]
  constructor
  · intro hmem
    rcases List.mem_append.mp hmem with hmem | hmem
    · have hkeep := List.of_mem_filter hmem
      have : (collectMessageIdsInRange messages sr.messageIndex er.messageIndex).contains
          s1.anchorMessageId = true := List.elem_iff.mpr hanchor
      rw [this] at hkeep
      simp at hkeep
    · rcases List.mem_singleton.mp hmem with h
      exact hne h
  · exact List.mem_append.mpr (Or.inr (List.mem_singleton.mpr rfl))

/-- Demonstration data for compress subsumption: one message whose text
holds both boundaries, and one existing summary anchored at it. -/
def subsumeDemoState : SessionState :=
  { toolParameters := [], toolIdList := []
    prune := { toolIds := [], messageIds := [] }
    compressSummaries := [{ anchorMessageId := "m0", summary := "OLD" }]
    stats := { pruneTokenCounter := 0, totalPruneTokens := 0 }
    nudgeCounter := 2, lastToolPrune := false, lastCompaction := 0 }

def subsumeDemoMsgs : List WithParts :=
  [{ info := { id := "m0", role := "user", sessionID := "s", timeCreated := 1
               summary := false }
     parts := [.text "AAA middle BBB"] }]

/-- C4 (witness): compressing the range containing the old anchor with a
different summary text removes the old summary and installs the new one. -/
theorem c4_compress_subsumption_witness :
    ({ anchorMessageId := "m0", summary := "OLD" } : CompressSummary)
        ∉ (compressExecute subsumeDemoState subsumeDemoMsgs "T" "AAA" "BBB"
          "NEW").2.compressSummaries
      ∧ ({ anchorMessageId := "m0", summary := "NEW" } : CompressSummary)
        ∈ (compressExecute subsumeDemoState subsumeDemoMsgs "T" "AAA" "BBB"
          "NEW").2.compressSummaries :=
  c4_compress_subsumption subsumeDemoState subsumeDemoMsgs "T" "AAA" "BBB" "NEW"
    "Compressed 1 messages (0 tool calls) into summary. The content will be replaced with your summary."
    { anchorMessageId := "m0", summary := "OLD" }
    { messageId := "m0", messageIndex := 0 } { messageId := "m0", messageIndex := 0 }
    (by rfl) (by decide) (by rfl) (by rfl) (by decide) (by decide)

/-- A state whose only summary is anchored at m0 with text X. -/
def subsumeSameState : SessionState :=
  { toolParameters := [], toolIdList := []
    prune := { toolIds := [], messageIds := [] }
    compressSummaries := [{ anchorMessageId := "m0", summary := "X" }]
    stats := { pruneTokenCounter := 0, totalPruneTokens := 0 }
    nudgeCounter := 2, lastToolPrune := false, lastCompaction := 0 }

/-- C4 (counterexample): the claim as stated is false in one corner.
Recompressing the same range with the same summary text X: the range
contains the anchor of the existing summary S1 = (m0, X), the call
succeeds, yet S1 is still in `compressSummaries` afterwards, because the
newly inserted summary equals S1. -/
theorem c4_counterexample :
    (compressExecute subsumeSameState subsumeDemoMsgs "T" "AAA" "BBB" "X").1
        = .ok "Compressed 1 messages (0 tool calls) into summary. The content will be replaced with your summary."
      ∧ ({ anchorMessageId := "m0", summary := "X" } : CompressSummary)
        ∈ subsumeSameState.compressSummaries
      ∧ findStringInMessages subsumeDemoMsgs "AAA" subsumeSameState.compressSummaries
          "startString" = .ok { messageId := "m0", messageIndex := 0 }
      ∧ findStringInMessages subsumeDemoMsgs "BBB" subsumeSameState.compressSummaries
          "endString" = .ok { messageId := "m0", messageIndex := 0 }
      ∧ "m0" ∈ collectMessageIdsInRange subsumeDemoMsgs 0 0
      ∧ ({ anchorMessageId := "m0", summary := "X" } : CompressSummary)
        ∈ (compressExecute subsumeSameState subsumeDemoMsgs "T" "AAA" "BBB"
          "X").2.compressSummaries :=
  ⟨by rfl, by decide, by rfl, by rfl, by decide, by decide⟩

/-! The supersede-writes strategy, from src/unnamed/part_014 (lines
175-264). -/

/-- Modelled from the spec: the tokens-saved estimator applied over each
redacted output (src/lib/strategies/utils.ts is not under src/); it only
feeds the stats counters. -/
def calculateTokensSaved (state : SessionState) (messages : List WithParts)
    (ids : List String) : Nat :=
  estimateTokensBatch ((allParts messages).foldl (fun acc p =>
    match p with
    | .tool cid _ ts =>
      if ids.contains cid && ts.status == "completed" then
        match ts.output with
        | .str s => acc ++ [s]
        | _ => acc
      else acc
    | _ => acc) [])

/-- One iteration of the path-classification loop of `supersedeWrites`:
a tool id with cached metadata and at least one extracted unprotected
file path is recorded — with its position — in the write map when it is a
write, and in the read map when it is a read. -/
def supersedeStep (state : SessionState) (config : PluginConfig)
    (maps : List (String × List (String × Nat)) × List (String × List Nat))
    (iid : Nat × String) :
    List (String × List (String × Nat)) × List (String × List Nat) :=
  match mapGet state.toolParameters iid.2 with
  | none => maps
  | some metadata =>
    match getFilePathsFromParameters metadata.tool metadata.parameters with
    | [] => maps
    | filePath :: restPaths =>
      if isProtected (filePath :: restPaths) config.protectedFilePatterns then maps
      else if metadata.tool == "write" then
        (mapSet maps.1 filePath ((mapGet maps.1 filePath).getD [] ++ [(iid.2, iid.1)]),
          maps.2)
      else if metadata.tool == "read" then
        (maps.1, mapSet maps.2 filePath ((mapGet maps.2 filePath).getD [] ++ [iid.1]))
      else maps

def buildWriteReadMaps (state : SessionState) (config : PluginConfig) :
    List (String × List (String × Nat)) × List (String × List Nat) :=
  (enumFrom 0 state.toolIdList).foldl (supersedeStep state config) ([], [])

/-- The ids one write-map entry contributes to `newPruneIds`: nothing
when the file has no recorded reads, otherwise every not-yet-pruned write
with a read at a later position (the continue/push loop of the source is
rendered as per-entry contributions concatenated in order). -/
def supersedeEntryContribution (state : SessionState)
    (readsByFile : List (String × List Nat))
    (entry : String × List (String × Nat)) : List String :=
  match mapGet readsByFile entry.1 with
  | none => []
  | some reads =>
    if reads.isEmpty then []
    else (entry.2.filter (fun w =>
      !(state.prune.toolIds.contains w.1) && reads.any (fun rj => w.2 < rj))).map
      (fun w => w.1)

def supersedeNewPruneIds (state : SessionState)
    (writesByFile : List (String × List (String × Nat)))
    (readsByFile : List (String × List Nat)) : List String :=
  writesByFile.foldl (fun acc entry =>
    acc ++ supersedeEntryContribution state readsByFile entry) []

/-- The `supersedeWrites` of src/unnamed/part_014: writes superseded by a
later read of the same first extracted path are added to
`state.prune.toolIds` (edits are not tracked: only the write tool feeds
the write map). -/
def supersedeWrites (state : SessionState) (config : PluginConfig)
    (messages : List WithParts) : SessionState :=
  if !config.strategies.supersedeWrites.enabled then state
  else if state.toolIdList.length == 0 then state
  else
    let unprunedIds := state.toolIdList.filter
      (fun id => !(state.prune.toolIds.contains id))
    if unprunedIds.length == 0 then state
    else
      let maps := buildWriteReadMaps state config
      let newPruneIds := supersedeNewPruneIds state maps.1 maps.2
      if newPruneIds.isEmpty then state
      else
        { state with
          stats :=
            { state.stats with
              totalPruneTokens :=
                state.stats.totalPruneTokens
                  + calculateTokensSaved state messages newPruneIds }
          prune :=
            { state.prune with
              toolIds := newPruneIds.foldl setAdd state.prune.toolIds } }

/-! Map, set and enumeration lemmas used to settle the supersede-writes
property. -/

theorem mapGet_mapSet_self (m : List (String × α)) (k : String) (v : α) :
    mapGet (mapSet m k v) k = some v := by
  induction m with
  | nil => simp [mapSet, mapGet]
  | cons kv rest ih =>
    by_cases h : (kv.1 == k) = true
    · simp only [mapSet, h, if_true]
      rw [mapGet_cons]
      simp
    · simp only [mapSet]
      rw [if_neg (by simpa using h), mapGet_cons, if_neg (by simpa using h)]
      exact ih

theorem mapGet_mapSet_ne (m : List (String × α)) (k k' : String) (v : α)
    (h : k ≠ k') : mapGet (mapSet m k v) k' = mapGet m k' := by
  have hkk : (k == k') = false := by
    rcases hb : k == k' with _ | _
    · rfl
    · rw [beq_iff_eq] at hb; exact absurd hb h
  induction m with
  | nil =>
    simp only [mapSet]
    rw [mapGet_cons, hkk]
    simp
  | cons kv rest ih =>
    by_cases hh : (kv.1 == k) = true
    · simp only [mapSet, hh, if_true]
      rw [mapGet_cons, mapGet_cons, hkk]
      have : (kv.1 == k') = false := by
        rw [beq_iff_eq] at hh; rw [hh]; exact hkk
      rw [this]
      simp
    · simp only [mapSet]
      rw [if_neg (by simpa using hh), mapGet_cons, mapGet_cons]
      by_cases hkv : (kv.1 == k') = true
      · rw [hkv]
        simp
      · rw [if_neg (by simpa using hkv), if_neg (by simpa using hkv)]
        exact ih

theorem mapGet_some_mem {m : List (String × α)} {k : String} {v : α}
    (h : mapGet m k = some v) : (k, v) ∈ m := by
  induction m with
  | nil => simp [mapGet] at h
  | cons kv rest ih =>
    rw [mapGet_cons] at h
    by_cases hh : (kv.1 == k) = true
    · rw [hh] at h
      simp only [if_true, Option.some_inj] at h
      rw [beq_iff_eq] at hh
      have heq : (k, v) = kv := by
        obtain ⟨k0, v0⟩ := kv
        simp only at hh h
        rw [hh, h]
      rw [heq]
      exact List.mem_cons_self kv rest
    · rw [if_neg (by simpa using hh)] at h
      exact List.mem_cons_of_mem kv (ih h)

theorem setAdd_contains_self (s : List String) (a : String) :
    (setAdd s a).contains a = true := by
  unfold setAdd
  by_cases h : s.contains a = true
  · rw [if_pos h]; exact h
  · rw [if_neg (by simpa using h)]
    exact List.elem_iff.mpr (List.mem_append_right _ (List.mem_singleton_self a))

theorem setAdd_contains_mono (s : List String) (a b : String)
    (h : s.contains b = true) : (setAdd s a).contains b = true := by
  unfold setAdd
  by_cases hc : s.contains a = true
  · rw [if_pos hc]; exact h
  · rw [if_neg (by simpa using hc)]
    exact List.elem_iff.mpr (List.mem_append_left _ (List.elem_iff.mp h))

theorem foldl_setAdd_contains_mono (b : String) :
    ∀ (ids : List String) (s : List String), s.contains b = true →
      (ids.foldl setAdd s).contains b = true := by
  intro ids
  induction ids with
  | nil => intro s h; exact h
  | cons a rest ih => intro s h; exact ih _ (setAdd_contains_mono s a b h)

theorem foldl_setAdd_contains_of_mem (b : String) :
    ∀ (ids : List String) (s : List String), b ∈ ids →
      (ids.foldl setAdd s).contains b = true := by
  intro ids
  induction ids with
  | nil => intro s h; cases h
  | cons a rest ih =>
    intro s h
    rcases List.mem_cons.mp h with h | h
    · subst h
      exact foldl_setAdd_contains_mono b rest _ (setAdd_contains_self s b)
    · exact ih _ h

theorem enumFrom_mem_of_getElem :
    ∀ (l : List α) (n i : Nat) (a : α), l[i]? = some a → (n + i, a) ∈ enumFrom n l := by
  intro l
  induction l with
  | nil => intro n i a h; simp at h
  | cons x rest ih =>
    intro n i a h
    cases i with
    | zero =>
      simp only [List.getElem?_cons_zero, Option.some_inj] at h
      subst h
      simp [enumFrom]
    | succ i =>
      simp only [List.getElem?_cons_succ] at h
      have := ih (n + 1) i a h
      have heq : n + (i + 1) = n + 1 + i := by omega
      rw [heq]
      exact List.mem_cons_of_mem _ this

/-- A classification step never removes a recorded write. -/
theorem supersedeStep_write_mono (state : SessionState) (config : PluginConfig)
    (maps : List (String × List (String × Nat)) × List (String × List Nat))
    (iid : Nat × String) (p : String) (w : String × Nat)
    (h : w ∈ (mapGet maps.1 p).getD []) :
    w ∈ (mapGet (supersedeStep state config maps iid).1 p).getD [] := by
  rcases hmd : mapGet state.toolParameters iid.2 with _ | md
  · simpa [supersedeStep, hmd] using h
  · rcases hfp : getFilePathsFromParameters md.tool md.parameters with _ | ⟨fp, restp⟩
    · simpa [supersedeStep, hmd, hfp] using h
    · rcases hpr : isProtected (fp :: restp) config.protectedFilePatterns with _ | _
      · by_cases hw : (md.tool == "write") = true
        · simp only [supersedeStep, hmd, hfp, hpr, hw, Bool.false_eq_true, if_false,
            if_true]
          by_cases hfpp : fp = p
          · subst hfpp
            rw [mapGet_mapSet_self, Option.getD_some]
            exact List.mem_append_left _ h
          · rw [mapGet_mapSet_ne _ _ _ _ hfpp]
            exact h
        · by_cases hr : (md.tool == "read") = true
          · simpa [supersedeStep, hmd, hfp, hpr, hw, hr] using h
          · simpa [supersedeStep, hmd, hfp, hpr, hw, hr] using h
      · simpa [supersedeStep, hmd, hfp, hpr] using h

/-- A classification step never removes a recorded read. -/
theorem supersedeStep_read_mono (state : SessionState) (config : PluginConfig)
    (maps : List (String × List (String × Nat)) × List (String × List Nat))
    (iid : Nat × String) (p : String) (j : Nat)
    (h : j ∈ (mapGet maps.2 p).getD []) :
    j ∈ (mapGet (supersedeStep state config maps iid).2 p).getD [] := by
  rcases hmd : mapGet state.toolParameters iid.2 with _ | md
  · simpa [supersedeStep, hmd] using h
  · rcases hfp : getFilePathsFromParameters md.tool md.parameters with _ | ⟨fp, restp⟩
    · simpa [supersedeStep, hmd, hfp] using h
    · rcases hpr : isProtected (fp :: restp) config.protectedFilePatterns with _ | _
      · by_cases hw : (md.tool == "write") = true
        · simpa [supersedeStep, hmd, hfp, hpr, hw] using h
        · by_cases hr : (md.tool == "read") = true
          · simp only [supersedeStep, hmd, hfp, hpr, hw, hr, Bool.false_eq_true,
              if_false, if_true]
            by_cases hfpp : fp = p
            · subst hfpp
              rw [mapGet_mapSet_self, Option.getD_some]
              exact List.mem_append_left _ h
            · rw [mapGet_mapSet_ne _ _ _ _ hfpp]
              exact h
          · simpa [supersedeStep, hmd, hfp, hpr, hw, hr] using h
      · simpa [supersedeStep, hmd, hfp, hpr] using h

theorem supersedeFold_write_mono (state : SessionState) (config : PluginConfig)
    (p : String) (w : String × Nat) :
    ∀ (l : List (Nat × String))
      (maps : List (String × List (String × Nat)) × List (String × List Nat)),
      w ∈ (mapGet maps.1 p).getD [] →
      w ∈ (mapGet (l.foldl (supersedeStep state config) maps).1 p).getD [] := by
  intro l
  induction l with
  | nil => intro maps h; exact h
  | cons iid rest ih =>
    intro maps h
    exact ih _ (supersedeStep_write_mono state config maps iid p w h)

theorem supersedeFold_read_mono (state : SessionState) (config : PluginConfig)
    (p : String) (j : Nat) :
    ∀ (l : List (Nat × String))
      (maps : List (String × List (String × Nat)) × List (String × List Nat)),
      j ∈ (mapGet maps.2 p).getD [] →
      j ∈ (mapGet (l.foldl (supersedeStep state config) maps).2 p).getD [] := by
  intro l
  induction l with
  | nil => intro maps h; exact h
  | cons iid rest ih =>
    intro maps h
    exact ih _ (supersedeStep_read_mono state config maps iid p j h)

/-- Processing the position of an unprotected write records it in the
write map for its file path, wherever in the id list it occurs. -/
theorem collect_write_mem (state : SessionState) (config : PluginConfig)
    (i : Nat) (wId p : String) (wmd : ToolParameterEntry)
    (hwmd : mapGet state.toolParameters wId = some wmd)
    (hwpaths : getFilePathsFromParameters wmd.tool wmd.parameters = [p])
    (hwtool : (wmd.tool == "write") = true)
    (hprot : isProtected [p] config.protectedFilePatterns = false) :
    ∀ (l : List (Nat × String))
      (maps : List (String × List (String × Nat)) × List (String × List Nat)),
      (i, wId) ∈ l →
      (wId, i) ∈ (mapGet (l.foldl (supersedeStep state config) maps).1 p).getD [] := by
  intro l
  induction l with
  | nil => intro maps h; cases h
  | cons iid rest ih =>
    intro maps h
    rcases List.mem_cons.mp h with heq | h
    · rw [List.foldl_cons]
      apply supersedeFold_write_mono
      rw [← heq]
      unfold supersedeStep
      dsimp only
      rw [hwmd]
      dsimp only
      rw [hwpaths]
      dsimp only
      simp only [hprot, Bool.false_eq_true, if_false, hwtool, if_true]
      rw [mapGet_mapSet_self, Option.getD_some]
      exact List.mem_append_right _ (List.mem_singleton_self _)
    · rw [List.foldl_cons]
      exact ih _ h

/-- Processing the position of an unprotected read records it in the
read map for its file path. -/
theorem collect_read_mem (state : SessionState) (config : PluginConfig)
    (j : Nat) (rId p : String) (rmd : ToolParameterEntry)
    (hrmd : mapGet state.toolParameters rId = some rmd)
    (hrpaths : getFilePathsFromParameters rmd.tool rmd.parameters = [p])
    (hrtool : rmd.tool = "read")
    (hprot : isProtected [p] config.protectedFilePatterns = false) :
    ∀ (l : List (Nat × String))
      (maps : List (String × List (String × Nat)) × List (String × List Nat)),
      (j, rId) ∈ l →
      j ∈ (mapGet (l.foldl (supersedeStep state config) maps).2 p).getD [] := by
  have hrw : (rmd.tool == "write") = false := by
    rw [hrtool]; decide
  have hrr : (rmd.tool == "read") = true := by
    rw [hrtool]; decide
  intro l
  induction l with
  | nil => intro maps h; cases h
  | cons iid rest ih =>
    intro maps h
    rcases List.mem_cons.mp h with heq | h
    · rw [List.foldl_cons]
      apply supersedeFold_read_mono
      rw [← heq]
      unfold supersedeStep
      dsimp only
      rw [hrmd]
      dsimp only
      rw [hrpaths]
      dsimp only
      simp only [hprot, Bool.false_eq_true, if_false, hrw, hrr, if_true]
      rw [mapGet_mapSet_self, Option.getD_some]
      exact List.mem_append_right _ (List.mem_singleton_self _)
    · rw [List.foldl_cons]
      exact ih _ h

theorem foldl_append_mono {β : Type} (g : β → List String) (a : String) :
    ∀ (l : List β) (init : List String), a ∈ init →
      a ∈ l.foldl (fun acc e => acc ++ g e) init := by
  intro l
  induction l with
  | nil => intro init h; exact h
  | cons e rest ih =>
    intro init h
    exact ih _ (List.mem_append_left _ h)

theorem foldl_append_mem {β : Type} (g : β → List String) (a : String) :
    ∀ (l : List β) (init : List String) (e : β), e ∈ l → a ∈ g e →
      a ∈ l.foldl (fun acc e => acc ++ g e) init := by
  intro l
  induction l with
  | nil => intro init e h _; cases h
  | cons e0 rest ih =>
    intro init e h ha
    rcases List.mem_cons.mp h with heq | h
    · subst heq
      exact foldl_append_mono g a rest _ (List.mem_append_right _ ha)
    · exact ih _ e h ha

/-- The prune set only grows across the strategy. -/
theorem supersedeWrites_prune_mono (state : SessionState) (config : PluginConfig)
    (messages : List WithParts) (id : String)
    (h : state.prune.toolIds.contains id = true) :
    (supersedeWrites state config messages).prune.toolIds.contains id = true := by
  unfold supersedeWrites
  split
  · exact h
  · split
    · exact h
    · dsimp only
      split
      · exact h
      · split
        · exact h
        · exact foldl_setAdd_contains_mono id _ _ h

/-- C6 (amended): for every file path p, when a write tool call with
first extracted path p occurs at an earlier position of the tool-id list
than a read of the same p (both with cached metadata, p unprotected, the
strategy enabled), the write's id ends up in `state.prune.toolIds`. Edit
tool calls are not superseded: the strategy records only the write tool
in its write map. -/
theorem c6_supersede_writes (state : SessionState) (config : PluginConfig)
    (messages : List WithParts) (i j : Nat) (wId rId p : String)
    (wmd rmd : ToolParameterEntry)
    (hen : config.strategies.supersedeWrites.enabled = true)
    (hwi : state.toolIdList[i]? = some wId)
    (hrj : state.toolIdList[j]? = some rId)
    (hij : i < j)
    (hwmd : mapGet state.toolParameters wId = some wmd)
    (hwtool : wmd.tool = "write")
    (hwpaths : getFilePathsFromParameters wmd.tool wmd.parameters = [p])
    (hrmd : mapGet state.toolParameters rId = some rmd)
    (hrtool : rmd.tool = "read")
    (hrpaths : getFilePathsFromParameters rmd.tool rmd.parameters = [p])
    (hprot : isProtected [p] config.protectedFilePatterns = false) :
    (supersedeWrites state config messages).prune.toolIds.contains wId = true := by
  by_cases hwp : state.prune.toolIds.contains wId = true
  · exact supersedeWrites_prune_mono state config messages wId hwp
  · have hwp' : state.prune.toolIds.contains wId = false := by
      rcases hb : state.prune.toolIds.contains wId with _ | _
      · rfl
      · exact absurd hb hwp
    have hmemw : (i, wId) ∈ enumFrom 0 state.toolIdList := by
      have := enumFrom_mem_of_getElem state.toolIdList 0 i wId hwi
      simpa using this
    have hmemr : (j, rId) ∈ enumFrom 0 state.toolIdList := by
      have := enumFrom_mem_of_getElem state.toolIdList 0 j rId hrj
      simpa using this
    have hwtool' : (wmd.tool == "write") = true := by rw [hwtool]; decide
    have hW := collect_write_mem state config i wId p wmd hwmd hwpaths hwtool' hprot
      (enumFrom 0 state.toolIdList) ([], []) hmemw
    have hR := collect_read_mem state config j rId p rmd hrmd hrpaths hrtool hprot
      (enumFrom 0 state.toolIdList) ([], []) hmemr
    rw [show (enumFrom 0 state.toolIdList).foldl (supersedeStep state config) ([], [])
        = buildWriteReadMaps state config from rfl] at hW hR
    rcases hWg : mapGet (buildWriteReadMaps state config).1 p with _ | ws
    · rw [hWg] at hW; simp at hW
    rcases hRg : mapGet (buildWriteReadMaps state config).2 p with _ | rs
    · rw [hRg] at hR; simp at hR
    rw [hWg, Option.getD_some] at hW
    rw [hRg, Option.getD_some] at hR
    have hentry : (p, ws) ∈ (buildWriteReadMaps state config).1 := mapGet_some_mem hWg
    have hcontrib : wId ∈ supersedeEntryContribution state
        (buildWriteReadMaps state config).2 (p, ws) := by
      unfold supersedeEntryContribution
      dsimp only
      rw [hRg]
      have hne : rs.isEmpty = false := by
        cases rs
        · cases hR
        · rfl
      dsimp only
      simp only [hne, Bool.false_eq_true, if_false]
      apply List.mem_map.mpr
      refine ⟨(wId, i), List.mem_filter.mpr ⟨hW, ?_⟩, rfl⟩
      have hany : rs.any (fun rj => decide (i < rj)) = true :=
        List.any_eq_true.mpr ⟨j, hR, decide_eq_true hij⟩
      dsimp only
      rw [hwp', hany]
      rfl
    have hnew : wId ∈ supersedeNewPruneIds state (buildWriteReadMaps state config).1
        (buildWriteReadMaps state config).2 := by
      unfold supersedeNewPruneIds
      exact foldl_append_mem _ wId _ [] (p, ws) hentry hcontrib
    have hlen : (state.toolIdList.length == 0) = false := by
      have hmem : wId ∈ state.toolIdList := List.getElem?_mem hwi
      have : state.toolIdList.length ≠ 0 := by
        intro h0
        rw [List.length_eq_zero] at h0
        rw [h0] at hmem
        cases hmem
      exact beq_eq_false_iff_ne.mpr this
    have hunp : ((state.toolIdList.filter
        (fun id => !(state.prune.toolIds.contains id))).length == 0) = false := by
      have hmem : wId ∈ state.toolIdList.filter
          (fun id => !(state.prune.toolIds.contains id)) :=
        List.mem_filter.mpr ⟨List.getElem?_mem hwi, by rw [hwp']; rfl⟩
      have : (state.toolIdList.filter
          (fun id => !(state.prune.toolIds.contains id))).length ≠ 0 := by
        intro h0
        rw [List.length_eq_zero] at h0
        rw [h0] at hmem
        cases hmem
      exact beq_eq_false_iff_ne.mpr this
    have hempty : (supersedeNewPruneIds state (buildWriteReadMaps state config).1
        (buildWriteReadMaps state config).2).isEmpty = false := by
      rcases hl : supersedeNewPruneIds state (buildWriteReadMaps state config).1
          (buildWriteReadMaps state config).2 with _ | _
      · rw [hl] at hnew; cases hnew
      · rfl
    unfold supersedeWrites
    simp only [hen, Bool.not_true, Bool.false_eq_true, if_false, hlen, hunp]
    simp only [hempty, Bool.false_eq_true, if_false]
    exact foldl_setAdd_contains_of_mem wId _ _ hnew

/-- A configuration with the supersede-writes strategy enabled and no
protected file patterns. -/
def supersedeDemoConfig : PluginConfig :=
  { strategies :=
      { pruneTool := { protectedTools := [] }
        supersedeWrites := { enabled := true } }
    protectedFilePatterns := [] }

def supersedeWriteEntry : ToolParameterEntry :=
  { tool := "write", parameters := .obj [("filePath", .str "/x")]
    status := "completed", error := .undef }

def supersedeReadEntry : ToolParameterEntry :=
  { tool := "read", parameters := .obj [("filePath", .str "/x")]
    status := "completed", error := .undef }

def supersedeEditEntry : ToolParameterEntry :=
  { tool := "edit", parameters := .obj [("filePath", .str "/x")]
    status := "completed", error := .undef }

/-- A session in which a write of /x precedes a read of /x. -/
def supersedeDemoState : SessionState :=
  { toolParameters := [("w1", supersedeWriteEntry), ("r1", supersedeReadEntry)]
    toolIdList := ["w1", "r1"]
    prune := { toolIds := [], messageIds := [] }
    compressSummaries := []
    stats := { pruneTokenCounter := 0, totalPruneTokens := 0 }
    nudgeCounter := 0
    lastToolPrune := false
    lastCompaction := 0 }

/-- A session in which an edit of /x precedes a read of /x. -/
def supersedeEditState : SessionState :=
  { toolParameters := [("e1", supersedeEditEntry), ("r1", supersedeReadEntry)]
    toolIdList := ["e1", "r1"]
    prune := { toolIds := [], messageIds := [] }
    compressSummaries := []
    stats := { pruneTokenCounter := 0, totalPruneTokens := 0 }
    nudgeCounter := 0
    lastToolPrune := false
    lastCompaction := 0 }

/-- C6 (witness): in the write-then-read session the strategy marks the
write id w1 for pruning. -/
theorem c6_supersede_writes_witness :
    (supersedeWrites supersedeDemoState supersedeDemoConfig
      []).prune.toolIds.contains "w1" = true :=
  c6_supersede_writes supersedeDemoState supersedeDemoConfig [] 0 1 "w1" "r1" "/x"
    supersedeWriteEntry supersedeReadEntry
    rfl rfl rfl (by decide) rfl rfl (by rfl) rfl rfl (by rfl) rfl

/-- C6 (counterexample): an edit of /x at an earlier position than a read
of /x, with metadata cached, the path unprotected and the strategy
enabled — yet the edit id e1 is not added to prune.toolIds, because the
strategy records only the write tool in its write map. -/
theorem c6_counterexample :
    supersedeDemoConfig.strategies.supersedeWrites.enabled = true ∧
    supersedeEditState.toolIdList[0]? = some "e1" ∧
    supersedeEditState.toolIdList[1]? = some "r1" ∧
    mapGet supersedeEditState.toolParameters "e1" = some supersedeEditEntry ∧
    supersedeEditEntry.tool = "edit" ∧
    getFilePathsFromParameters supersedeEditEntry.tool supersedeEditEntry.parameters
      = ["/x"] ∧
    mapGet supersedeEditState.toolParameters "r1" = some supersedeReadEntry ∧
    supersedeReadEntry.tool = "read" ∧
    getFilePathsFromParameters supersedeReadEntry.tool supersedeReadEntry.parameters
      = ["/x"] ∧
    isProtected ["/x"] supersedeDemoConfig.protectedFilePatterns = false ∧
    (supersedeWrites supersedeEditState supersedeDemoConfig
      []).prune.toolIds.contains "e1" = false :=
  ⟨rfl, rfl, rfl, rfl, rfl, by rfl, rfl, rfl, by rfl, rfl, by rfl⟩

end DCP
